import Mathlib

/-!
Verification development for the `orao.py` disk-image tool.

The Python source is shallowly embedded: an image file is a byte store
`Nat → Nat` (offset to byte value) together with an explicit length where
needed; sequential `file.write` streams become explicit lists of
`(offset, value)` writes applied in order; machine integers are `Nat`
(with explicit `% 256` where the code masks with `& 0xff`), except where
Python integers can go negative, where `Int` is used.
-/

set_option maxRecDepth 8000

namespace Orao

/-- `Disk` dataclass (orao.py lines 10-15): disk name and C/H/S geometry.
The name is kept as its list of byte values. -/
structure Disk where
  name : List Nat
  cylinders : Nat
  heads : Nat
  sectors : Nat
  deriving DecidableEq, Repr

/-- `Disk.block_size` (orao.py lines 17-18): bytes per cylinder. -/
def Disk.block_size (d : Disk) : Nat := d.heads * d.sectors * 512

/-!
## Sector-skip counter (spec side)

Modelled from the spec's words (section 4.4 / claim C1): the physical
sector position for a block is given by a running counter starting at 0,
advanced once per emitted block, except that when its pre-increment
value equals `sectors - 2` it is advanced by two instead of one, the
extra advance being applied before use.  `pos + 2 = s` is the
integer-arithmetic reading of `pos == sectors - 2` (no Nat truncation).
-/

/-- Counter value entering block `b` (spec side). -/
def specCounter (s : Nat) : Nat → Nat
  | 0 => 0
  | b + 1 => (if specCounter s b + 2 = s then specCounter s b + 1 else specCounter s b) + 1

/-- Sector position actually used for block `b`, after the skip rule (spec side). -/
def specUsed (s b : Nat) : Nat :=
  if specCounter s b + 2 = s then specCounter s b + 1 else specCounter s b

/-- Physical byte offset of block `b` of a file on cylinder `i` (spec side):
`block_size * i + (pos + 1) * 512` with `pos` the post-skip counter value. -/
def specOffset (disk : Disk) (i b : Nat) : Nat :=
  disk.block_size * i + (specUsed disk.sectors b + 1) * 512

/-!
## Extract block loop (code side)

`extract` (orao.py lines 173-192): `blocks = data_size >> 8`, `pos = 0`;
for each full block, `if pos == disk.sectors-2: pos += 1`, seek to
`disk.block_size() * i + (pos + 1) * 512`, copy 256 logical bytes,
`pos += 1`; then the same skip check once more for the final partial
block of `data_size & 0xff` bytes.
-/

/-- The sequence of seek offsets of `extract`'s full-block loop, together with
the final value of `pos`.  First argument triple: sectors, block size, cylinder;
then number of remaining blocks and current `pos`. -/
def extractSeeks (s bs i : Nat) : Nat → Nat → List Nat × Nat
  | 0, pos => ([], pos)
  | n + 1, pos =>
    let p := if pos + 2 = s then pos + 1 else pos
    let r := extractSeeks s bs i n (p + 1)
    ((bs * i + (p + 1) * 512) :: r.1, r.2)

/-- All seek offsets performed by `extract` for a file of `ds` data bytes on
cylinder `i`: one per full 256-byte block, plus the final partial-block seek. -/
def extract_offsets (disk : Disk) (i ds : Nat) : List Nat :=
  let r := extractSeeks disk.sectors disk.block_size i (ds / 256) 0
  let p := if r.2 + 2 = disk.sectors then r.2 + 1 else r.2
  r.1 ++ [disk.block_size * i + (p + 1) * 512]

/-!
## Inject block loop (code side)

`inject` (orao.py lines 316-336) duplicates the same loop in the write
direction: `blocks = fsize >> 8`, `pos = 0`, the same skip check before
each seek, and the same final partial-block seek for `fsize & 0xff` bytes.
-/

/-- The sequence of seek offsets of `inject`'s full-block loop, with the final
`pos` (mirrors `extractSeeks`; the code duplicates the loop). -/
def injectSeeks (s bs i : Nat) : Nat → Nat → List Nat × Nat
  | 0, pos => ([], pos)
  | n + 1, pos =>
    let p := if pos + 2 = s then pos + 1 else pos
    let r := injectSeeks s bs i n (p + 1)
    ((bs * i + (p + 1) * 512) :: r.1, r.2)

/-- All seek offsets performed by `inject` for a source file of `fsize` bytes
written to cylinder `i`. -/
def inject_offsets (disk : Disk) (i fsize : Nat) : List Nat :=
  let r := injectSeeks disk.sectors disk.block_size i (fsize / 256) 0
  let p := if r.2 + 2 = disk.sectors then r.2 + 1 else r.2
  r.1 ++ [disk.block_size * i + (p + 1) * 512]

lemma specCounter_succ (s b : Nat) :
    specCounter s (b + 1) = specUsed s b + 1 := by
  simp [specCounter, specUsed]

lemma extractSeeks_eq (s bs i : Nat) :
    ∀ n k, extractSeeks s bs i n (specCounter s k) =
      ((List.range' k n).map (fun b => bs * i + (specUsed s b + 1) * 512),
        specCounter s (k + n)) := by
  intro n
  induction n with
  | zero => intro k; simp [extractSeeks]
  | succ n ih =>
    intro k
    have hstep : (if specCounter s k + 2 = s then specCounter s k + 1
        else specCounter s k) = specUsed s k := rfl
    have ih1 := ih (k + 1)
    rw [specCounter_succ s k] at ih1
    simp only [extractSeeks, hstep]
    rw [ih1, List.range'_succ, List.map_cons]
    have hn : k + 1 + n = k + (n + 1) := by omega
    rw [hn]

lemma injectSeeks_eq (s bs i : Nat) :
    ∀ n k, injectSeeks s bs i n (specCounter s k) =
      ((List.range' k n).map (fun b => bs * i + (specUsed s b + 1) * 512),
        specCounter s (k + n)) := by
  intro n
  induction n with
  | zero => intro k; simp [injectSeeks]
  | succ n ih =>
    intro k
    have hstep : (if specCounter s k + 2 = s then specCounter s k + 1
        else specCounter s k) = specUsed s k := rfl
    have ih1 := ih (k + 1)
    rw [specCounter_succ s k] at ih1
    simp only [injectSeeks, hstep]
    rw [ih1, List.range'_succ, List.map_cons]
    have hn : k + 1 + n = k + (n + 1) := by omega
    rw [hn]

lemma extract_offsets_eq (disk : Disk) (i ds : Nat) :
    extract_offsets disk i ds =
      (List.range (ds / 256 + 1)).map (specOffset disk i) := by
  have h : extractSeeks disk.sectors disk.block_size i (ds / 256) 0 =
      ((List.range' 0 (ds / 256)).map
        (fun b => disk.block_size * i + (specUsed disk.sectors b + 1) * 512),
        specCounter disk.sectors (0 + ds / 256)) :=
    extractSeeks_eq disk.sectors disk.block_size i (ds / 256) 0
  rw [extract_offsets, h]
  have hused : (if specCounter disk.sectors (ds / 256) + 2 = disk.sectors then
      specCounter disk.sectors (ds / 256) + 1
      else specCounter disk.sectors (ds / 256)) = specUsed disk.sectors (ds / 256) := rfl
  simp only [Nat.zero_add, hused, List.range_eq_range', List.range'_1_concat,
    List.map_append]
  simp [specOffset]

lemma inject_offsets_eq (disk : Disk) (i fsize : Nat) :
    inject_offsets disk i fsize =
      (List.range (fsize / 256 + 1)).map (specOffset disk i) := by
  have h : injectSeeks disk.sectors disk.block_size i (fsize / 256) 0 =
      ((List.range' 0 (fsize / 256)).map
        (fun b => disk.block_size * i + (specUsed disk.sectors b + 1) * 512),
        specCounter disk.sectors (0 + fsize / 256)) :=
    injectSeeks_eq disk.sectors disk.block_size i (fsize / 256) 0
  rw [inject_offsets, h]
  have hused : (if specCounter disk.sectors (fsize / 256) + 2 = disk.sectors then
      specCounter disk.sectors (fsize / 256) + 1
      else specCounter disk.sectors (fsize / 256)) = specUsed disk.sectors (fsize / 256) := rfl
  simp only [Nat.zero_add, hused, List.range_eq_range', List.range'_1_concat,
    List.map_append]
  simp [specOffset]

/-- C1: for every disk geometry and every file on cylinder `i`, the seek
offsets computed by the extract and inject block loops (full blocks followed
by the final partial block) are exactly
`block_size * i + (pos + 1) * 512`, where `pos` is the running skip-rule
counter of the spec: the `b`-th offset (zero-based, `b` up to and including
the partial-block index `data_size / 256`) is `specOffset disk i b`. -/
theorem claim1_block_offsets (disk : Disk) (i ds fsize : Nat) :
    extract_offsets disk i ds =
      (List.range (ds / 256 + 1)).map (specOffset disk i) ∧
    inject_offsets disk i fsize =
      (List.range (fsize / 256 + 1)).map (specOffset disk i) :=
  ⟨extract_offsets_eq disk i ds, inject_offsets_eq disk i fsize⟩

/-!
## Generic list-indexing helpers

The Python code indexes read buffers (`data[i]`) and byte strings; the
embedding uses `List.getD _ _ 0`.
-/

lemma getD_append_left {l l' : List Nat} {n d : Nat} (h : n < l.length) :
    (l ++ l').getD n d = l.getD n d := by
  simp [List.getD_eq_getElem?_getD, List.getElem?_append_left h]

lemma getD_append_right {l l' : List Nat} {n d : Nat} (h : l.length ≤ n) :
    (l ++ l').getD n d = l'.getD (n - l.length) d := by
  simp [List.getD_eq_getElem?_getD, List.getElem?_append_right h]

lemma getD_take {l : List Nat} {n k d : Nat} (h : k < n) :
    (l.take n).getD k d = l.getD k d := by
  simp [List.getD_eq_getElem?_getD, List.getElem?_take_of_lt h]

lemma getD_drop {l : List Nat} {m k d : Nat} :
    (l.drop m).getD k d = l.getD (m + k) d := by
  simp [List.getD_eq_getElem?_getD, List.getElem?_drop]

lemma length_pairEnc (l : List Nat) :
    (l.flatMap (fun x => [x, 0])).length = 2 * l.length := by
  induction l with
  | nil => simp
  | cons x xs ih => simp [ih]; omega

/-!
## Name decoding (`extract_name`, orao.py lines 35-42)

Reads every second byte of the 64-byte header buffer (offsets
`0, 2, ..., 0x1e`, i.e. 16 iterations), stopping early at the `0x04`
terminator, and collects the logical name bytes.
-/

/-- One iteration of `extract_name`'s loop: `i` is the current byte offset,
the second argument the number of remaining iterations. -/
def extract_name_go (data : List Nat) : Nat → Nat → List Nat
  | _, 0 => []
  | i, fuel + 1 =>
    let c := data.getD i 0
    if c = 0x04 then [] else c :: extract_name_go data (i + 2) fuel

/-- `extract_name` (orao.py lines 35-42): the decoded name of a 64-byte
header buffer, as a list of byte values. -/
def extract_name (data : List Nat) : List Nat := extract_name_go data 0 16

lemma extract_name_go_shift (data : List Nat) :
    ∀ fuel i, extract_name_go data (i + 2) fuel = extract_name_go (data.drop 2) i fuel := by
  intro fuel
  induction fuel with
  | zero => intro i; rfl
  | succ fuel ih =>
    intro i
    simp only [extract_name_go, getD_drop]
    rw [show 2 + i = i + 2 from by omega, ih (i + 2)]

lemma extract_name_go_pairEnc :
    ∀ (nm : List Nat) (rest : List Nat) (fuel : Nat), (∀ x ∈ nm, x ≠ 4) →
      nm.length < fuel →
      extract_name_go (nm.flatMap (fun x => [x, 0]) ++ [4, 0] ++ rest) 0 fuel = nm := by
  intro nm
  induction nm with
  | nil =>
    intro rest fuel _ hf
    match fuel, hf with
    | f + 1, _ => simp [extract_name_go]
  | cons x xs ih =>
    intro rest fuel hne hf
    match fuel, hf with
    | f + 1, hf =>
      have hx : x ≠ 4 := hne x (by simp)
      have hlt : xs.length < f := by simpa using Nat.lt_of_succ_lt_succ hf
      simp only [List.flatMap_cons, List.cons_append, List.nil_append, extract_name_go,
        List.getD_cons_zero]
      rw [if_neg hx]
      rw [show (1 : Nat) + 1 = 0 + 2 from rfl, extract_name_go_shift]
      simp only [List.drop_succ_cons, List.drop_zero]
      exact congrArg (x :: ·) (ih rest f (fun y hy => hne y (by simp [hy])) hlt)

/-- The decoded name of any buffer beginning with the byte-pair encoding of
`nm` (each byte followed by a zero pad) and the `0x04` terminator pair is
`nm` itself, provided `nm` has at most 15 bytes none of which is `0x04`. -/
lemma extract_name_pairEnc (nm rest : List Nat) (hne : ∀ x ∈ nm, x ≠ 4)
    (hlen : nm.length ≤ 15) :
    extract_name (nm.flatMap (fun x => [x, 0]) ++ [4, 0] ++ rest) = nm :=
  extract_name_go_pairEnc nm rest 16 hne (by omega)

/-!
## Image opening (`check_image`, orao.py lines 44-63)

Decodes the volume header from the first 64 bytes, then validates the
expected size `cylinders * heads * sectors * 512` (the stored cylinder
field is the maximum index, hence the `+ 1`) against the actual size:
an expected size larger than the file is fatal, any other mismatch only
warns.
-/

/-- Outcome of `check_image`: fatal size error (`sys.exit(-1)`), non-fatal
size warning (still returns the disk), or clean open. -/
inductive CheckResult where
  | fatal (expected actual : Nat)
  | warn (expected actual : Nat) (disk : Disk)
  | ok (disk : Disk)
  deriving DecidableEq, Repr

/-- `check_image` (orao.py lines 44-63). -/
def check_image (file : List Nat) : CheckResult :=
  let fsize := file.length
  let data := file.take 0x40
  let name := extract_name data
  let cylinders := data.getD 0x20 0 + data.getD 0x22 0 * 256 + 1
  let heads := data.getD 0x24 0
  let sectors := data.getD 0x26 0
  let expected := cylinders * heads * sectors * 512
  if expected > fsize then .fatal expected fsize
  else if fsize ≠ expected then .warn expected fsize ⟨name, cylinders, heads, sectors⟩
  else .ok ⟨name, cylinders, heads, sectors⟩

/-- The geometry decoded from an image's first 64 bytes (claim-side reader,
mirroring orao.py lines 49-53). -/
def image_disk (file : List Nat) : Disk :=
  let data := file.take 0x40
  { name := extract_name data
    cylinders := data.getD 0x20 0 + data.getD 0x22 0 * 256 + 1
    heads := data.getD 0x24 0
    sectors := data.getD 0x26 0 }

/-- The expected image size implied by the decoded header
(orao.py line 56). -/
def expected_size (file : List Nat) : Nat :=
  (image_disk file).cylinders * (image_disk file).heads * (image_disk file).sectors * 512

/-- `check_image` in terms of the claim-side readers `expected_size` and
`image_disk` (definitional restatement). -/
lemma check_image_cases (file : List Nat) :
    check_image file =
      if expected_size file > file.length then
        CheckResult.fatal (expected_size file) file.length
      else if file.length ≠ expected_size file then
        CheckResult.warn (expected_size file) file.length (image_disk file)
      else CheckResult.ok (image_disk file) := rfl

/-- C6: `check_image` aborts fatally exactly when the expected size
(decoded cylinders x heads x sectors x 512) exceeds the actual file size,
and when the actual size is strictly larger it returns a non-fatal warning
carrying the decoded geometry. -/
theorem claim6_size_check (file : List Nat) :
    ((∃ e a, check_image file = CheckResult.fatal e a) ↔ expected_size file > file.length)
    ∧ (file.length > expected_size file →
        check_image file = CheckResult.warn (expected_size file) file.length
          (image_disk file)) := by
  have hd := check_image_cases file
  by_cases h1 : expected_size file > file.length
  · refine ⟨⟨fun _ => h1, fun _ => ⟨_, _, by rw [hd, if_pos h1]⟩⟩, fun h2 => ?_⟩
    omega
  · by_cases h2 : file.length = expected_size file
    · refine ⟨⟨fun ⟨e, a, hea⟩ => ?_, fun hc => absurd hc h1⟩, fun h3 => ?_⟩
      · rw [hd, if_neg h1, if_neg (by omega)] at hea
        exact absurd hea (by simp)
      · omega
    · refine ⟨⟨fun ⟨e, a, hea⟩ => ?_, fun hc => absurd hc h1⟩, fun _ => ?_⟩
      · rw [hd, if_neg h1, if_pos (by omega)] at hea
        exact absurd hea (by simp)
      · rw [hd, if_neg h1, if_pos (by omega)]

/-- Witness for C6 at a concrete oversized all-zero image. -/
theorem claim6_size_check_witness :
    (List.replicate 600 0).length > expected_size (List.replicate 600 0) ∧
    check_image (List.replicate 600 0) =
      CheckResult.warn (expected_size (List.replicate 600 0))
        (List.replicate 600 0).length (image_disk (List.replicate 600 0)) :=
  ⟨by decide, (claim6_size_check (List.replicate 600 0)).2 (by decide)⟩

/-!
## Image creation (`create`, orao.py lines 75-96)

Writes the byte-pair-encoded name, the `0x04` terminator, zero padding to
15 name slots, the cylinder count minus one (low byte, high byte), heads,
sectors — every logical byte followed by a zero pad byte — then zero fill:
236 byte pairs to finish cylinder 0's first sector, and
`((cylinders * heads * sectors) - 1) * 256` further pairs.
The CLI count arguments are positive integers, so the `- 1` subtractions
never underflow in the modelled domain. -/
def create (name : List Nat) (cylinders heads sectors : Nat) : List Nat :=
  (name.flatMap (fun x => [x, 0]) ++ [0x04, 0] ++
    List.replicate ((15 - name.length) * 2) 0)
  ++ [(cylinders - 1) % 256, 0, (cylinders - 1) / 256 % 256, 0,
      heads % 256, 0, sectors % 256, 0]
  ++ List.replicate (236 * 2) 0
  ++ List.replicate ((cylinders * heads * sectors - 1) * 256 * 2) 0

lemma create_nameblock_length (nm : List Nat) (hlen : nm.length ≤ 15) :
    (nm.flatMap (fun x => [x, 0]) ++ [4, 0] ++
      List.replicate ((15 - nm.length) * 2) 0).length = 32 := by
  simp only [List.length_append, length_pairEnc, List.length_cons, List.length_nil,
    List.length_replicate]
  omega

lemma create_length (nm : List Nat) (c h s : Nat) (hlen : nm.length ≤ 15)
    (hpos : 1 ≤ c * h * s) :
    (create nm c h s).length = c * h * s * 512 := by
  simp only [create, List.length_append, length_pairEnc, List.length_cons,
    List.length_nil, List.length_replicate]
  generalize c * h * s = t at hpos ⊢
  omega

lemma create_getD_geo (nm : List Nat) (c h s : Nat) (hlen : nm.length ≤ 15) (j : Nat)
    (hj : j < 8) :
    (create nm c h s).getD (32 + j) 0 =
      [(c - 1) % 256, 0, (c - 1) / 256 % 256, 0, h % 256, 0, s % 256, 0].getD j 0 := by
  rw [create, List.append_assoc, List.append_assoc,
    getD_append_right (by rw [create_nameblock_length nm hlen]; omega)]
  rw [create_nameblock_length nm hlen]
  rw [show 32 + j - 32 = j from by omega]
  rw [getD_append_left (by simp; omega)]

lemma create_take_getD_geo (nm : List Nat) (c h s : Nat) (hlen : nm.length ≤ 15) (j : Nat)
    (hj : j < 8) :
    ((create nm c h s).take 0x40).getD (32 + j) 0 =
      [(c - 1) % 256, 0, (c - 1) / 256 % 256, 0, h % 256, 0, s % 256, 0].getD j 0 := by
  rw [getD_take (by omega)]
  exact create_getD_geo nm c h s hlen j hj

lemma create_take_name (nm : List Nat) (c h s : Nat) (hlen : nm.length ≤ 15)
    (hne : ∀ x ∈ nm, x ≠ 4) :
    extract_name ((create nm c h s).take 0x40) = nm := by
  have h64A : (0x40 : Nat) = (nm.flatMap (fun x => [x, 0])).length + (64 - 2 * nm.length) := by
    rw [length_pairEnc]; omega
  have h2 : 64 - 2 * nm.length = ([4, 0] : List Nat).length + (62 - 2 * nm.length) := by
    simp only [List.length_cons, List.length_nil]
    omega
  rw [create]
  simp only [List.append_assoc]
  rw [h64A, List.take_append, h2, List.take_append, ← List.append_assoc]
  exact extract_name_pairEnc nm _ hne hlen

lemma create_byte20 (nm : List Nat) (c h s : Nat) (hlen : nm.length ≤ 15) :
    ((create nm c h s).take 0x40).getD 0x20 0 = (c - 1) % 256 := by
  have := create_take_getD_geo nm c h s hlen 0 (by omega)
  simpa using this

lemma create_byte22 (nm : List Nat) (c h s : Nat) (hlen : nm.length ≤ 15) :
    ((create nm c h s).take 0x40).getD 0x22 0 = (c - 1) / 256 % 256 := by
  have := create_take_getD_geo nm c h s hlen 2 (by omega)
  simpa using this

lemma create_byte24 (nm : List Nat) (c h s : Nat) (hlen : nm.length ≤ 15) :
    ((create nm c h s).take 0x40).getD 0x24 0 = h % 256 := by
  have := create_take_getD_geo nm c h s hlen 4 (by omega)
  simpa using this

lemma create_byte26 (nm : List Nat) (c h s : Nat) (hlen : nm.length ≤ 15) :
    ((create nm c h s).take 0x40).getD 0x26 0 = s % 256 := by
  have := create_take_getD_geo nm c h s hlen 6 (by omega)
  simpa using this

/-- The geometry decoded when re-opening a freshly created image, before
any range reasoning: each stored field wraps modulo its width. -/
lemma image_disk_create (nm : List Nat) (c h s : Nat) (hlen : nm.length ≤ 15)
    (hne : ∀ x ∈ nm, x ≠ 4) :
    image_disk (create nm c h s) =
      ⟨nm, (c - 1) % 256 + (c - 1) / 256 % 256 * 256 + 1, h % 256, s % 256⟩ := by
  simp only [image_disk]
  rw [create_byte20 nm c h s hlen, create_byte22 nm c h s hlen,
    create_byte24 nm c h s hlen, create_byte26 nm c h s hlen,
    create_take_name nm c h s hlen hne]

/-- C5 (amended): creating an image with at most 15 name bytes, none equal
to the `0x04` terminator, and counts within their header fields
(`cylinders ≤ 65536`, `heads ≤ 255`, `sectors ≤ 255`, all positive) and
re-opening it yields exactly the same name and geometry with no error and
no warning, and the created file's length is `cylinders * heads * sectors * 512`. -/
theorem claim5_create_roundtrip (nm : List Nat) (c h s : Nat)
    (hlen : nm.length ≤ 15) (hch : ∀ x ∈ nm, x < 128 ∧ x ≠ 4)
    (hc1 : 1 ≤ c) (hc2 : c ≤ 65536) (hh1 : 1 ≤ h) (hh2 : h ≤ 255)
    (hs1 : 1 ≤ s) (hs2 : s ≤ 255) :
    check_image (create nm c h s) = CheckResult.ok ⟨nm, c, h, s⟩ ∧
    (create nm c h s).length = c * h * s * 512 := by
  have hpos : 1 ≤ c * h * s := by
    have := Nat.mul_le_mul (Nat.mul_le_mul hc1 hh1) hs1
    simpa using this
  have hL := create_length nm c h s hlen hpos
  have hid : image_disk (create nm c h s) = ⟨nm, c, h, s⟩ := by
    rw [image_disk_create nm c h s hlen (fun x hx => (hch x hx).2)]
    simp only [Disk.mk.injEq]
    refine ⟨trivial, by omega, by omega, by omega⟩
  have hexp : expected_size (create nm c h s) = c * h * s * 512 := by
    rw [expected_size, hid]
  refine ⟨?_, hL⟩
  rw [check_image_cases, hexp, hid, hL]
  simp

/-- Witness for C5 at a concrete small geometry. -/
theorem claim5_create_roundtrip_witness :
    check_image (create [79] 2 1 1) = CheckResult.ok ⟨[79], 2, 1, 1⟩ ∧
    (create [79] 2 1 1).length = 2 * 1 * 1 * 512 :=
  claim5_create_roundtrip [79] 2 1 1 (by decide) (by decide) (by decide) (by decide)
    (by decide) (by decide) (by decide) (by decide)

/-- Counterexample to C5 as stated: with `heads = 256` (a positive head
count), the head-count byte stored by `create` wraps to 0, so re-opening
does not return the same geometry (the open in fact warns, since the
decoded expected size is 0). -/
theorem claim5_counterexample :
    check_image (create [] 1 256 1) ≠ CheckResult.ok ⟨[], 1, 256, 1⟩ := by
  have hid := image_disk_create [] 1 256 1 (by decide) (by simp)
  have hexp : expected_size (create [] 1 256 1) = 0 := by
    rw [expected_size, hid]
    decide
  have hL := create_length [] 1 256 1 (by decide) (by decide)
  rw [check_image_cases, hexp, hid, hL]
  simp

/-!
## Image mutation primitives

`file.seek` + `file.write` sequences are modelled as lists of
`(offset, value)` byte writes applied in order.
-/

/-- Apply a list of byte writes to an image, in order (a later write to the
same offset wins). -/
def applyWrites (img : Nat → Nat) : List (Nat × Nat) → (Nat → Nat)
  | [] => img
  | (o, v) :: ws => applyWrites (fun x => if x = o then v else img x) ws

/-- The writes of a run of consecutive `out.write` calls starting at `base`. -/
def seqWrites (base : Nat) : List Nat → List (Nat × Nat)
  | [] => []
  | v :: vs => (base, v) :: seqWrites (base + 1) vs

lemma applyWrites_notMem : ∀ (ws : List (Nat × Nat)) (img : Nat → Nat) (o : Nat),
    o ∉ ws.map Prod.fst → applyWrites img ws o = img o := by
  intro ws
  induction ws with
  | nil => intro img o _; rfl
  | cons w ws ih =>
    intro img o h
    simp only [List.map_cons, List.mem_cons] at h
    push_neg at h
    obtain ⟨h1, h2⟩ := h
    obtain ⟨wo, wv⟩ := w
    simp only [applyWrites]
    rw [ih _ o h2]
    simp only [if_neg h1]

lemma applyWrites_mem_nodup : ∀ (ws : List (Nat × Nat)) (img : Nat → Nat) (o v : Nat),
    (ws.map Prod.fst).Nodup → (o, v) ∈ ws → applyWrites img ws o = v := by
  intro ws
  induction ws with
  | nil => intro img o v _ hm; cases hm
  | cons w ws ih =>
    intro img o v hnd hm
    obtain ⟨wo, wv⟩ := w
    simp only [List.map_cons, List.nodup_cons] at hnd
    obtain ⟨hno, hnd'⟩ := hnd
    rcases List.mem_cons.1 hm with heq | htl
    · obtain ⟨rfl, rfl⟩ : o = wo ∧ v = wv := by
        exact ⟨congrArg Prod.fst heq, congrArg Prod.snd heq⟩
      simp only [applyWrites]
      rw [applyWrites_notMem ws _ o hno]
      simp
    · simp only [applyWrites]
      exact ih _ o v hnd' htl

lemma seqWrites_map_fst : ∀ (l : List Nat) (base : Nat),
    (seqWrites base l).map Prod.fst = List.range' base l.length := by
  intro l
  induction l with
  | nil => intro base; rfl
  | cons v vs ih =>
    intro base
    simp only [seqWrites, List.map_cons, List.length_cons, List.range'_succ, ih]

lemma seqWrites_mem_getD : ∀ (l : List Nat) (base j : Nat), j < l.length →
    (base + j, l.getD j 0) ∈ seqWrites base l := by
  intro l
  induction l with
  | nil => intro base j h; simp at h
  | cons v vs ih =>
    intro base j h
    cases j with
    | zero => simp [seqWrites]
    | succ j =>
      have := ih (base + 1) j (by simpa using Nat.lt_of_succ_lt_succ h)
      simp only [seqWrites, List.getD_cons_succ]
      right
      rw [show base + (j + 1) = base + 1 + j from by omega]
      exact this

lemma seqWrites_fst_bounds {l : List Nat} {base o : Nat}
    (h : o ∈ (seqWrites base l).map Prod.fst) : base ≤ o ∧ o < base + l.length := by
  rw [seqWrites_map_fst] at h
  exact List.mem_range'_1.1 h

/-!
## Cylinder header reads

Every scanning loop reads the 64-byte header of cylinder `i` with
`file.seek(disk.block_size() * i, 0); data = file.read(0x40)`.
-/

/-- The 64-byte header buffer of cylinder `i` of image `img` (block size `bs`). -/
def cylData (img : Nat → Nat) (bs i : Nat) : List Nat :=
  (List.range 0x40).map (fun m => img (bs * i + m))

lemma cylData_status (img : Nat → Nat) (bs i : Nat) :
    (cylData img bs i).getD 0 0 = img (bs * i) := by
  simp [cylData, List.getD_eq_getElem?_getD,
    List.getElem?_range (show (0 : Nat) < 0x40 by omega)]

lemma cylData_congr {img img' : Nat → Nat} {bs i : Nat}
    (h : ∀ m, m < 0x40 → img (bs * i + m) = img' (bs * i + m)) :
    cylData img bs i = cylData img' bs i := by
  unfold cylData
  exact List.map_congr_left (fun m hm => h m (List.mem_range.1 hm))

/-!
## Erase (orao.py lines 198-224)

Scans like the other loops; on each confirmed ACTIVE match it rewrites the
cylinder's status byte to `0xff` followed by 255 zero pairs.  The
interactive confirmation is an external collaborator and is modelled as
always-yes; `P` abstracts the external pattern match
`fnmatch(extract_name(data).strip(), filter)`.
-/

/-- The tombstone writes of one confirmed erase at cylinder `i`
(orao.py lines 217-220): `write_byte(file, 0xff)` then `write_zeros(file, 255)`,
512 consecutive bytes from the start of the cylinder. -/
def erase_writes (bs i : Nat) : List (Nat × Nat) :=
  seqWrites (bs * i) ([0xff, 0] ++ List.replicate (255 * 2) 0)

/-- The image after the `erase` scan. -/
def erase_run (bs : Nat) (P : List Nat → Bool) : (Nat → Nat) → List Nat → (Nat → Nat)
  | img, [] => img
  | img, i :: rest =>
    if (cylData img bs i).getD 0 0 = 0x00 then img
    else if (cylData img bs i).getD 0 0 = 0xff then erase_run bs P img rest
    else if P (extract_name (cylData img bs i)) then
      erase_run bs P (applyWrites img (erase_writes bs i)) rest
    else erase_run bs P img rest

lemma erase_writes_length : ([0xff, 0] ++ List.replicate (255 * 2) 0 : List Nat).length = 512 := by
  simp

lemma applyWrites_erase_writes_above (img : Nat → Nat) (bs i o : Nat)
    (h : bs * i + 512 ≤ o) :
    applyWrites img (erase_writes bs i) o = img o := by
  apply applyWrites_notMem
  intro hmem
  have := seqWrites_fst_bounds hmem
  rw [erase_writes_length] at this
  omega

/-!
## Directory listing (`dir`, orao.py lines 111-148)

The loop starts the free counter at `disk.cylinders - 2`, breaks at the
first END header, `continue`s past DELETED headers (without touching the
counter), and decrements the counter once per ACTIVE entry whether or not
the name matches the filter.  Python integers can go negative here, so the
counter is an `Int`.
-/

/-- The free-counter loop of `dir` (orao.py lines 125-143). -/
def dirFreeLoop (img : Nat → Nat) (bs : Nat) : Int → List Nat → Int
  | free, [] => free
  | free, i :: rest =>
    if (cylData img bs i).getD 0 0 = 0x00 then free
    else if (cylData img bs i).getD 0 0 = 0xff then dirFreeLoop img bs free rest
    else dirFreeLoop img bs (free - 1) rest

/-- The `BLOCKS FREE` value printed by `dir` (orao.py lines 120 and 148). -/
def dir_free (img : Nat → Nat) (disk : Disk) : Int :=
  dirFreeLoop img disk.block_size ((disk.cylinders : Int) - 2)
    (List.range' 1 (disk.cylinders - 1))

/-- Number of ACTIVE entries among the scanned cylinders before the first
END header (claim-side counter). -/
def countActive (img : Nat → Nat) (bs : Nat) : List Nat → Nat
  | [] => 0
  | i :: rest =>
    if (cylData img bs i).getD 0 0 = 0x00 then 0
    else if (cylData img bs i).getD 0 0 = 0xff then countActive img bs rest
    else countActive img bs rest + 1

/-- Number of ACTIVE-or-DELETED entries among the scanned cylinders before
the first END header (claim-side counter). -/
def countActiveDeleted (img : Nat → Nat) (bs : Nat) : List Nat → Nat
  | [] => 0
  | i :: rest =>
    if (cylData img bs i).getD 0 0 = 0x00 then 0
    else if (cylData img bs i).getD 0 0 = 0xff then countActiveDeleted img bs rest + 1
    else countActiveDeleted img bs rest + 1

lemma dirFreeLoop_eq (img : Nat → Nat) (bs : Nat) :
    ∀ (l : List Nat) (free : Int),
      dirFreeLoop img bs free l = free - countActive img bs l := by
  intro l
  induction l with
  | nil => intro free; simp [dirFreeLoop, countActive]
  | cons i rest ih =>
    intro free
    by_cases h0 : (cylData img bs i).getD 0 0 = 0x00
    · simp only [dirFreeLoop, countActive, if_pos h0]
      simp
    · by_cases hff : (cylData img bs i).getD 0 0 = 0xff
      · simp only [dirFreeLoop, countActive, if_neg h0, if_pos hff]
        exact ih free
      · simp only [dirFreeLoop, countActive, if_neg h0, if_neg hff]
        rw [ih (free - 1)]
        push_cast
        ring

/-- C2 (amended): the free-block count reported by `dir` equals
`(cylinders - 2)` minus the number of ACTIVE entries scanned before the
first END header; DELETED entries are skipped by `continue` before the
decrement and therefore do not reduce the count. -/
theorem claim2_dir_free (img : Nat → Nat) (disk : Disk) :
    dir_free img disk =
      (disk.cylinders : Int) - 2 -
        countActive img disk.block_size (List.range' 1 (disk.cylinders - 1)) :=
  dirFreeLoop_eq img disk.block_size (List.range' 1 (disk.cylinders - 1)) _

/-- Counterexample to C2 as stated: on a 4-cylinder disk whose catalog is
two DELETED entries followed by END, `dir` prints `(4 - 2) - 0 = 2` free
blocks, not `(4 - 1) - 2 = 1` as the claim's formula demands. -/
theorem claim2_counterexample :
    dir_free (fun o => if o = 512 then 0xff else if o = 1024 then 0xff else 0)
        ⟨[], 4, 1, 1⟩ ≠
      (4 : Int) - 1 -
        countActiveDeleted (fun o => if o = 512 then 0xff else if o = 1024 then 0xff else 0)
          (Disk.block_size ⟨[], 4, 1, 1⟩) (List.range' 1 (4 - 1)) := by
  decide

/-!
## Catalog scan footprints (claim C3)

For each scanning loop, the list of cylinder indices whose headers are
read before the loop stops.  `dir` (lines 125-131), `extract`
(lines 159-165) and `erase` (lines 207-213) break at the first END header
and skip DELETED ones; `inject`'s first pass (lines 263-273) additionally
stops (with a FileExists error) at the first ACTIVE entry whose name
matches; `inject`'s second pass (lines 278-339) stops at the first END
*or DELETED* header, where it writes.
-/

/-- Header reads performed by the `dir` loop. -/
def dir_examined (img : Nat → Nat) (bs : Nat) : List Nat → List Nat
  | [] => []
  | i :: rest =>
    if (cylData img bs i).getD 0 0 = 0x00 then [i]
    else if (cylData img bs i).getD 0 0 = 0xff then i :: dir_examined img bs rest
    else i :: dir_examined img bs rest

/-- Header reads performed by the `extract` loop. -/
def extract_examined (img : Nat → Nat) (bs : Nat) : List Nat → List Nat
  | [] => []
  | i :: rest =>
    if (cylData img bs i).getD 0 0 = 0x00 then [i]
    else if (cylData img bs i).getD 0 0 = 0xff then i :: extract_examined img bs rest
    else i :: extract_examined img bs rest

/-- Header reads performed by the `erase` loop.  The image is threaded
through because a confirmed erase rewrites the current cylinder's header
before the scan continues. -/
def erase_examined (bs : Nat) (P : List Nat → Bool) : (Nat → Nat) → List Nat → List Nat
  | _, [] => []
  | img, i :: rest =>
    if (cylData img bs i).getD 0 0 = 0x00 then [i]
    else if (cylData img bs i).getD 0 0 = 0xff then i :: erase_examined bs P img rest
    else if P (extract_name (cylData img bs i)) then
      i :: erase_examined bs P (applyWrites img (erase_writes bs i)) rest
    else i :: erase_examined bs P img rest

/-- Header reads performed by `inject`'s first (FileExists) pass; `P`
abstracts the pattern match against the target filename. -/
def inject1_examined (img : Nat → Nat) (bs : Nat) (P : List Nat → Bool) : List Nat → List Nat
  | [] => []
  | i :: rest =>
    if (cylData img bs i).getD 0 0 = 0x00 then [i]
    else if (cylData img bs i).getD 0 0 = 0xff then i :: inject1_examined img bs P rest
    else if P (extract_name (cylData img bs i)) then [i]
    else i :: inject1_examined img bs P rest

/-- Header reads performed by `inject`'s second (slot-finding) pass. -/
def inject2_examined (img : Nat → Nat) (bs : Nat) : List Nat → List Nat
  | [] => []
  | i :: rest =>
    if (cylData img bs i).getD 0 0 = 0x00 ∨ (cylData img bs i).getD 0 0 = 0xff then [i]
    else i :: inject2_examined img bs rest

/-- Claim-side scan footprint: the scanned prefix of `l` up to and
including the first index satisfying `stop` (all of `l` when none does). -/
def claimExaminedBy (stop : Nat → Bool) (l : List Nat) : List Nat :=
  match l.findIdx? stop with
  | some k => l.take (k + 1)
  | none => l

/-- Claim-side footprint of a scan that terminates exactly at the first
END header. -/
def claimExamined (img : Nat → Nat) (bs : Nat) (l : List Nat) : List Nat :=
  claimExaminedBy (fun i => (cylData img bs i).getD 0 0 == 0x00) l

lemma claimExaminedBy_nil (stop : Nat → Bool) : claimExaminedBy stop [] = [] := rfl

lemma claimExaminedBy_cons_pos (stop : Nat → Bool) (i : Nat) (l : List Nat)
    (h : stop i = true) : claimExaminedBy stop (i :: l) = [i] := by
  simp [claimExaminedBy, h]

lemma claimExaminedBy_cons_neg (stop : Nat → Bool) (i : Nat) (l : List Nat)
    (h : stop i = false) :
    claimExaminedBy stop (i :: l) = i :: claimExaminedBy stop l := by
  unfold claimExaminedBy
  rw [List.findIdx?_cons, if_neg (by simp [h]), List.findIdx?_start_succ]
  cases hf : l.findIdx? stop with
  | none => simp
  | some k => simp

lemma claimExaminedBy_congr {p q : Nat → Bool} :
    ∀ l : List Nat, (∀ x ∈ l, p x = q x) →
      claimExaminedBy p l = claimExaminedBy q l := by
  intro l
  induction l with
  | nil => intro _; rfl
  | cons i rest ih =>
    intro h
    have hi := h i (by simp)
    by_cases hp : p i = true
    · rw [claimExaminedBy_cons_pos p i rest hp, claimExaminedBy_cons_pos q i rest (hi ▸ hp)]
    · have hp' : p i = false := by simpa using hp
      rw [claimExaminedBy_cons_neg p i rest hp', claimExaminedBy_cons_neg q i rest (hi ▸ hp'),
        ih (fun x hx => h x (by simp [hx]))]

lemma dir_examined_eq (img : Nat → Nat) (bs : Nat) :
    ∀ l : List Nat, dir_examined img bs l = claimExamined img bs l := by
  intro l
  induction l with
  | nil => rfl
  | cons i rest ih =>
    by_cases h0 : (cylData img bs i).getD 0 0 = 0x00
    · rw [claimExamined, claimExaminedBy_cons_pos
        (fun j => (cylData img bs j).getD 0 0 == 0x00) i rest (beq_iff_eq.mpr h0)]
      simp only [dir_examined, if_pos h0]
    · rw [claimExamined, claimExaminedBy_cons_neg
        (fun j => (cylData img bs j).getD 0 0 == 0x00) i rest (beq_eq_false_iff_ne.mpr h0)]
      by_cases hff : (cylData img bs i).getD 0 0 = 0xff
      · simp only [dir_examined, if_neg h0, if_pos hff]
        rw [ih]; rfl
      · simp only [dir_examined, if_neg h0, if_neg hff]
        rw [ih]; rfl

lemma extract_examined_eq (img : Nat → Nat) (bs : Nat) :
    ∀ l : List Nat, extract_examined img bs l = claimExamined img bs l := by
  intro l
  induction l with
  | nil => rfl
  | cons i rest ih =>
    by_cases h0 : (cylData img bs i).getD 0 0 = 0x00
    · rw [claimExamined, claimExaminedBy_cons_pos
        (fun j => (cylData img bs j).getD 0 0 == 0x00) i rest (beq_iff_eq.mpr h0)]
      simp only [extract_examined, if_pos h0]
    · rw [claimExamined, claimExaminedBy_cons_neg
        (fun j => (cylData img bs j).getD 0 0 == 0x00) i rest (beq_eq_false_iff_ne.mpr h0)]
      by_cases hff : (cylData img bs i).getD 0 0 = 0xff
      · simp only [extract_examined, if_neg h0, if_pos hff]
        rw [ih]; rfl
      · simp only [extract_examined, if_neg h0, if_neg hff]
        rw [ih]; rfl

lemma erase_examined_eq (bs : Nat) (P : List Nat → Bool) (hbs : 512 ≤ bs) :
    ∀ (l : List Nat) (img : Nat → Nat), l.Pairwise (· < ·) →
      erase_examined bs P img l = claimExamined img bs l := by
  intro l
  induction l with
  | nil => intro img _; rfl
  | cons i rest ih =>
    intro img hpw
    rw [List.pairwise_cons] at hpw
    obtain ⟨hlt, hpw'⟩ := hpw
    by_cases h0 : (cylData img bs i).getD 0 0 = 0x00
    · rw [claimExamined, claimExaminedBy_cons_pos
        (fun j => (cylData img bs j).getD 0 0 == 0x00) i rest (beq_iff_eq.mpr h0)]
      simp only [erase_examined, if_pos h0]
    · rw [claimExamined, claimExaminedBy_cons_neg
        (fun j => (cylData img bs j).getD 0 0 == 0x00) i rest (beq_eq_false_iff_ne.mpr h0)]
      by_cases hff : (cylData img bs i).getD 0 0 = 0xff
      · simp only [erase_examined, if_neg h0, if_pos hff]
        rw [ih img hpw']; rfl
      · by_cases hP : P (extract_name (cylData img bs i)) = true
        · simp only [erase_examined, if_neg h0, if_neg hff, if_pos hP]
          rw [ih _ hpw']
          congr 1
          unfold claimExamined
          apply claimExaminedBy_congr
          intro j hj
          have hcd : cylData (applyWrites img (erase_writes bs i)) bs j = cylData img bs j := by
            apply cylData_congr
            intro m _
            apply applyWrites_erase_writes_above
            have hmul : bs * (i + 1) ≤ bs * j := Nat.mul_le_mul_left bs (hlt j hj)
            calc bs * i + 512 ≤ bs * i + bs := by omega
              _ = bs * (i + 1) := by ring
              _ ≤ bs * j := hmul
              _ ≤ bs * j + m := by omega
          rw [hcd]
        · have hP' : P (extract_name (cylData img bs i)) = false := by simpa using hP
          simp only [erase_examined, if_neg h0, if_neg hff, hP', Bool.false_eq_true,
            if_false]
          rw [ih img hpw']; rfl

lemma inject1_examined_eq (img : Nat → Nat) (bs : Nat) (P : List Nat → Bool) :
    ∀ l : List Nat, inject1_examined img bs P l =
      claimExaminedBy (fun i =>
        (cylData img bs i).getD 0 0 == 0x00 ||
          (!((cylData img bs i).getD 0 0 == 0xff) &&
            P (extract_name (cylData img bs i)))) l := by
  intro l
  induction l with
  | nil => rfl
  | cons i rest ih =>
    by_cases h0 : (cylData img bs i).getD 0 0 = 0x00
    · rw [claimExaminedBy_cons_pos
        (fun j => (cylData img bs j).getD 0 0 == 0x00 ||
          (!((cylData img bs j).getD 0 0 == 0xff) &&
            P (extract_name (cylData img bs j)))) i rest
        (by simp only []
            rw [beq_iff_eq.mpr h0, Bool.true_or])]
      simp only [inject1_examined, if_pos h0]
    · by_cases hff : (cylData img bs i).getD 0 0 = 0xff
      · rw [claimExaminedBy_cons_neg
          (fun j => (cylData img bs j).getD 0 0 == 0x00 ||
            (!((cylData img bs j).getD 0 0 == 0xff) &&
              P (extract_name (cylData img bs j)))) i rest
          (by simp only []
              rw [beq_eq_false_iff_ne.mpr h0, beq_iff_eq.mpr hff]
              rfl)]
        simp only [inject1_examined, if_neg h0, if_pos hff]
        rw [ih]
      · by_cases hP : P (extract_name (cylData img bs i)) = true
        · rw [claimExaminedBy_cons_pos
            (fun j => (cylData img bs j).getD 0 0 == 0x00 ||
              (!((cylData img bs j).getD 0 0 == 0xff) &&
                P (extract_name (cylData img bs j)))) i rest
            (by simp only []
                rw [beq_eq_false_iff_ne.mpr h0, beq_eq_false_iff_ne.mpr hff, hP]
                rfl)]
          simp only [inject1_examined, if_neg h0, if_neg hff, if_pos hP]
        · have hP' : P (extract_name (cylData img bs i)) = false := by simpa using hP
          rw [claimExaminedBy_cons_neg
            (fun j => (cylData img bs j).getD 0 0 == 0x00 ||
              (!((cylData img bs j).getD 0 0 == 0xff) &&
                P (extract_name (cylData img bs j)))) i rest
            (by simp only []
                rw [beq_eq_false_iff_ne.mpr h0, beq_eq_false_iff_ne.mpr hff, hP']
                rfl)]
          simp only [inject1_examined, if_neg h0, if_neg hff, hP', Bool.false_eq_true,
            if_false]
          rw [ih]

lemma inject2_examined_eq (img : Nat → Nat) (bs : Nat) :
    ∀ l : List Nat, inject2_examined img bs l =
      claimExaminedBy (fun i =>
        (cylData img bs i).getD 0 0 == 0x00 || (cylData img bs i).getD 0 0 == 0xff) l := by
  intro l
  induction l with
  | nil => rfl
  | cons i rest ih =>
    by_cases hfree : (cylData img bs i).getD 0 0 = 0x00 ∨ (cylData img bs i).getD 0 0 = 0xff
    · rw [claimExaminedBy_cons_pos
        (fun j => (cylData img bs j).getD 0 0 == 0x00 || (cylData img bs j).getD 0 0 == 0xff)
        i rest
        (by simp only []
            rcases hfree with h | h
            · rw [beq_iff_eq.mpr h, Bool.true_or]
            · rw [beq_iff_eq.mpr h, Bool.or_true])]
      simp only [inject2_examined, if_pos hfree]
    · push_neg at hfree
      rw [claimExaminedBy_cons_neg
        (fun j => (cylData img bs j).getD 0 0 == 0x00 || (cylData img bs j).getD 0 0 == 0xff)
        i rest
        (by simp only []
            rw [beq_eq_false_iff_ne.mpr hfree.1, beq_eq_false_iff_ne.mpr hfree.2]
            rfl)]
      simp only [inject2_examined, if_neg (not_or.mpr hfree)]
      rw [ih]

/-- C3 (amended): the `dir`, `extract` and `erase` scans and `inject`'s
first pass read cylinders `1..cylinders-1` in increasing order up to and
including a terminating cylinder, with DELETED headers skipped without
ending the scan; for `dir`, `extract` and `erase` the terminator is
exactly the first END header, for `inject`'s first pass it is the first
END header or the first matching ACTIVE entry (the FileExists error),
while `inject`'s second pass terminates at the first END *or DELETED*
header, where it writes.  (`erase` needs the cylinder size of at least
512 bytes so that a tombstone cannot touch a later header.) -/
theorem claim3_scan_termination (img : Nat → Nat) (disk : Disk) (P Q : List Nat → Bool)
    (hbs : 512 ≤ disk.block_size) :
    dir_examined img disk.block_size (List.range' 1 (disk.cylinders - 1)) =
        claimExamined img disk.block_size (List.range' 1 (disk.cylinders - 1))
    ∧ extract_examined img disk.block_size (List.range' 1 (disk.cylinders - 1)) =
        claimExamined img disk.block_size (List.range' 1 (disk.cylinders - 1))
    ∧ erase_examined disk.block_size Q img (List.range' 1 (disk.cylinders - 1)) =
        claimExamined img disk.block_size (List.range' 1 (disk.cylinders - 1))
    ∧ inject1_examined img disk.block_size P (List.range' 1 (disk.cylinders - 1)) =
        claimExaminedBy (fun i =>
          (cylData img disk.block_size i).getD 0 0 == 0x00 ||
            (!((cylData img disk.block_size i).getD 0 0 == 0xff) &&
              P (extract_name (cylData img disk.block_size i))))
          (List.range' 1 (disk.cylinders - 1))
    ∧ inject2_examined img disk.block_size (List.range' 1 (disk.cylinders - 1)) =
        claimExaminedBy (fun i =>
          (cylData img disk.block_size i).getD 0 0 == 0x00 ||
            (cylData img disk.block_size i).getD 0 0 == 0xff)
          (List.range' 1 (disk.cylinders - 1)) :=
  ⟨dir_examined_eq img disk.block_size _,
   extract_examined_eq img disk.block_size _,
   erase_examined_eq disk.block_size Q hbs _ img (List.pairwise_lt_range' 1 _ 1 (by omega)),
   inject1_examined_eq img disk.block_size P _,
   inject2_examined_eq img disk.block_size _⟩

/-- Witness for C3 on a concrete 4-cylinder disk. -/
theorem claim3_scan_termination_witness :
    512 ≤ (Disk.block_size ⟨[], 4, 1, 1⟩) ∧
    inject2_examined (fun o => if o = 512 then 0xff else 0) (Disk.block_size ⟨[], 4, 1, 1⟩)
        (List.range' 1 (4 - 1)) =
      claimExaminedBy (fun i =>
        (cylData (fun o => if o = 512 then 0xff else 0) (Disk.block_size ⟨[], 4, 1, 1⟩) i).getD 0 0
            == 0x00 ||
          (cylData (fun o => if o = 512 then 0xff else 0) (Disk.block_size ⟨[], 4, 1, 1⟩) i).getD 0 0
            == 0xff)
        (List.range' 1 (4 - 1)) :=
  ⟨by decide,
    (claim3_scan_termination (fun o => if o = 512 then 0xff else 0) ⟨[], 4, 1, 1⟩
      (fun _ => false) (fun _ => false) (by decide)).2.2.2.2⟩

/-- Counterexample to C3 as stated: on a catalog whose first entry is
DELETED and whose second is END, `inject`'s second pass stops at the
DELETED cylinder 1 (it writes there) instead of skipping it and
terminating at the END header at cylinder 2. -/
theorem claim3_counterexample :
    inject2_examined (fun o => if o = 512 then 0xff else 0) 512 (List.range' 1 3) ≠
      claimExamined (fun o => if o = 512 then 0xff else 0) 512 (List.range' 1 3) := by
  decide

/-!
## Inject header construction (orao.py lines 284-314)

The 64-byte directory header written at the chosen slot: the basename
padded with spaces to 15 characters plus the `0x04` terminator (each byte
pair-encoded), then start/end/auto addresses (little-endian, byte-pair
encoded), the type byte and the flag byte.  A `"B"`-typed injection
hard-codes start `0x0400`, auto `0xB147`, type `0x42` and flag `0x12`; an
`"O"`-typed one stores the caller-supplied start/auto with type `0x4F`
and flag `0x00`.  `end_addr = start_addr + fsize - 1` is computed with
Python integers, which can go to `-1` when `fsize = 0`, so it is an `Int`
(on `Int`, Lean's `%` and `/` are floor-style for positive divisors,
exactly like Python's `& 0xff` and `>> 8`).
-/

/-- The 32 header bytes of the padded, terminated filename
(orao.py lines 284-291). -/
def name_bytes (fn : List Nat) : List Nat :=
  (List.range 15).flatMap (fun j => [fn.getD j 0x20, 0]) ++ [0x04, 0]

/-- The 16 metadata header bytes (orao.py lines 293-314). -/
def meta_bytes (typeB : Bool) (start auto fsize : Nat) : List Nat :=
  let start_addr : Nat := if typeB then 0x0400 else start
  let auto_addr : Nat := if typeB then 0xB147 else auto
  let file_type : Nat := if typeB then 0x42 else 0x4F
  let unk_byte : Nat := if typeB then 0x12 else 0x00
  let end_addr : Int := (start_addr : Int) + (fsize : Int) - 1
  [start_addr % 256, 0, start_addr / 256 % 256, 0,
   (end_addr.emod 256).toNat, 0, ((end_addr.ediv 256).emod 256).toNat, 0,
   auto_addr % 256, 0, auto_addr / 256 % 256, 0,
   file_type, 0, unk_byte, 0]

/-!
Claim-side readers of a written 64-byte header, mirroring how `dir`
decodes it (orao.py lines 135-141).
-/

/-- Stored start address: `data[0x20] | data[0x22] << 8`. -/
def hdr_start_addr (data : List Nat) : Nat := data.getD 0x20 0 + data.getD 0x22 0 * 256

/-- Stored end address: `data[0x24] | data[0x26] << 8`. -/
def hdr_end_addr (data : List Nat) : Nat := data.getD 0x24 0 + data.getD 0x26 0 * 256

/-- Stored auto-start address: `data[0x28] | data[0x2a] << 8`. -/
def hdr_auto_addr (data : List Nat) : Nat := data.getD 0x28 0 + data.getD 0x2a 0 * 256

/-- Stored file-type byte: `data[0x2c]`. -/
def hdr_file_type (data : List Nat) : Nat := data.getD 0x2c 0

/-- Stored flag byte: `data[0x2e]`. -/
def hdr_unk_byte (data : List Nat) : Nat := data.getD 0x2e 0

lemma length_flatMapPairs (f : Nat → Nat) : ∀ n : Nat,
    ((List.range n).flatMap (fun j => [f j, 0])).length = 2 * n := by
  intro n
  induction n with
  | zero => rfl
  | succ n ih =>
    rw [List.range_succ, List.flatMap_append, List.length_append, ih]
    simp
    omega

lemma name_bytes_length (fn : List Nat) : (name_bytes fn).length = 32 := by
  rw [name_bytes, List.length_append, length_flatMapPairs]
  rfl

lemma header_getD_meta (fn meta : List Nat) (j : Nat) :
    (name_bytes fn ++ meta).getD (32 + j) 0 = meta.getD j 0 := by
  rw [getD_append_right (by rw [name_bytes_length]; omega), name_bytes_length]
  congr 1
  omega

lemma int_ediv_eq (a b : Int) : a.ediv b = a / b := rfl

lemma int_emod_eq (a b : Int) : a.emod b = a % b := rfl

/-- C9 (amended): a `"B"`-typed injection always stores start `0x0400`,
auto `0xB147`, type byte `0x42` and flag byte `0x12` regardless of the
caller-supplied start/auto, and stores end address
`0x0400 + fsize - 1` as long as that fits in the 16-bit field
(`fsize ≤ 0xFC00`, `fsize ≥ 1`); an `"O"`-typed injection stores the
caller-supplied start and auto (when they fit in 16 bits) with type byte
`0x4F` and flag byte `0x00`, and end address `start + fsize - 1` under the
same 16-bit fit condition. -/
theorem claim9_inject_metadata (fn : List Nat) (start auto fsize : Nat) :
    (hdr_start_addr (name_bytes fn ++ meta_bytes true start auto fsize) = 0x0400
      ∧ hdr_auto_addr (name_bytes fn ++ meta_bytes true start auto fsize) = 0xB147
      ∧ hdr_file_type (name_bytes fn ++ meta_bytes true start auto fsize) = 0x42
      ∧ hdr_unk_byte (name_bytes fn ++ meta_bytes true start auto fsize) = 0x12
      ∧ (1 ≤ fsize → fsize ≤ 0xFC00 →
          hdr_end_addr (name_bytes fn ++ meta_bytes true start auto fsize) =
            0x0400 + fsize - 1))
    ∧ (start ≤ 0xFFFF → auto ≤ 0xFFFF →
        (hdr_start_addr (name_bytes fn ++ meta_bytes false start auto fsize) = start
          ∧ hdr_auto_addr (name_bytes fn ++ meta_bytes false start auto fsize) = auto
          ∧ hdr_file_type (name_bytes fn ++ meta_bytes false start auto fsize) = 0x4F
          ∧ hdr_unk_byte (name_bytes fn ++ meta_bytes false start auto fsize) = 0x00
          ∧ (1 ≤ fsize → start + fsize - 1 ≤ 0xFFFF →
              hdr_end_addr (name_bytes fn ++ meta_bytes false start auto fsize) =
                start + fsize - 1))) := by
  have hread : ∀ j : Nat, ∀ tB : Bool,
      (name_bytes fn ++ meta_bytes tB start auto fsize).getD (32 + j) 0 =
        (meta_bytes tB start auto fsize).getD j 0 :=
    fun j tB => header_getD_meta fn _ j
  constructor
  · refine ⟨?_, ?_, ?_, ?_, ?_⟩
    · rw [hdr_start_addr, show (0x20 : Nat) = 32 + 0 from rfl,
        show (0x22 : Nat) = 32 + 2 from rfl, hread 0 true, hread 2 true]
      simp only [meta_bytes, reduceIte, List.getD_eq_getElem?_getD, List.getElem?_cons_succ,
        List.getElem?_cons_zero, Option.getD_some]
    · rw [hdr_auto_addr, show (0x28 : Nat) = 32 + 8 from rfl,
        show (0x2a : Nat) = 32 + 10 from rfl, hread 8 true, hread 10 true]
      simp only [meta_bytes, reduceIte, List.getD_eq_getElem?_getD, List.getElem?_cons_succ,
        List.getElem?_cons_zero, Option.getD_some]
    · rw [hdr_file_type, show (0x2c : Nat) = 32 + 12 from rfl, hread 12 true]
      simp only [meta_bytes, reduceIte, List.getD_eq_getElem?_getD, List.getElem?_cons_succ,
        List.getElem?_cons_zero, Option.getD_some]
    · rw [hdr_unk_byte, show (0x2e : Nat) = 32 + 14 from rfl, hread 14 true]
      simp only [meta_bytes, reduceIte, List.getD_eq_getElem?_getD, List.getElem?_cons_succ,
        List.getElem?_cons_zero, Option.getD_some]
    · intro h1 h2
      rw [hdr_end_addr, show (0x24 : Nat) = 32 + 4 from rfl,
        show (0x26 : Nat) = 32 + 6 from rfl, hread 4 true, hread 6 true]
      simp only [meta_bytes, reduceIte, List.getD_eq_getElem?_getD, List.getElem?_cons_succ,
        List.getElem?_cons_zero, Option.getD_some]
      simp only [int_ediv_eq, int_emod_eq]
      omega
  · intro hst hau
    refine ⟨?_, ?_, ?_, ?_, ?_⟩
    · rw [hdr_start_addr, show (0x20 : Nat) = 32 + 0 from rfl,
        show (0x22 : Nat) = 32 + 2 from rfl, hread 0 false, hread 2 false]
      simp only [meta_bytes, Bool.false_eq_true, if_false, List.getD_eq_getElem?_getD, List.getElem?_cons_succ,
        List.getElem?_cons_zero, Option.getD_some]
      omega
    · rw [hdr_auto_addr, show (0x28 : Nat) = 32 + 8 from rfl,
        show (0x2a : Nat) = 32 + 10 from rfl, hread 8 false, hread 10 false]
      simp only [meta_bytes, Bool.false_eq_true, if_false, List.getD_eq_getElem?_getD, List.getElem?_cons_succ,
        List.getElem?_cons_zero, Option.getD_some]
      omega
    · rw [hdr_file_type, show (0x2c : Nat) = 32 + 12 from rfl, hread 12 false]
      simp only [meta_bytes, Bool.false_eq_true, if_false, List.getD_eq_getElem?_getD, List.getElem?_cons_succ,
        List.getElem?_cons_zero, Option.getD_some]
    · rw [hdr_unk_byte, show (0x2e : Nat) = 32 + 14 from rfl, hread 14 false]
      simp only [meta_bytes, Bool.false_eq_true, if_false, List.getD_eq_getElem?_getD, List.getElem?_cons_succ,
        List.getElem?_cons_zero, Option.getD_some]
    · intro h1 h2
      rw [hdr_end_addr, show (0x24 : Nat) = 32 + 4 from rfl,
        show (0x26 : Nat) = 32 + 6 from rfl, hread 4 false, hread 6 false]
      simp only [meta_bytes, Bool.false_eq_true, if_false, List.getD_eq_getElem?_getD, List.getElem?_cons_succ,
        List.getElem?_cons_zero, Option.getD_some]
      simp only [int_ediv_eq, int_emod_eq]
      omega

/-- Witness for C9 at concrete values (`fsize = 300`, O-start 7, auto 9). -/
theorem claim9_inject_metadata_witness :
    hdr_start_addr (name_bytes [] ++ meta_bytes true 7 9 300) = 0x0400 ∧
    hdr_end_addr (name_bytes [] ++ meta_bytes true 7 9 300) = 0x0400 + 300 - 1 ∧
    hdr_start_addr (name_bytes [] ++ meta_bytes false 7 9 300) = 7 ∧
    hdr_end_addr (name_bytes [] ++ meta_bytes false 7 9 300) = 7 + 300 - 1 :=
  ⟨(claim9_inject_metadata [] 7 9 300).1.1,
   (claim9_inject_metadata [] 7 9 300).1.2.2.2.2 (by decide) (by decide),
   ((claim9_inject_metadata [] 7 9 300).2 (by decide) (by decide)).1,
   ((claim9_inject_metadata [] 7 9 300).2 (by decide) (by decide)).2.2.2.2
     (by decide) (by decide)⟩

/-- Counterexample to C9 as stated: with a 65536-byte source file, the
"B"-typed end address `0x0400 + 65536 - 1 = 0x103FF` does not fit in the
two stored bytes; the header stores `0x03FF` instead. -/
theorem claim9_counterexample :
    hdr_end_addr (name_bytes [] ++ meta_bytes true 0 0 65536) ≠ 0x0400 + 65536 - 1 := by
  decide

/-!
## Inject (orao.py lines 242-343)

After the host-side pre-checks (source file exists, type is `"O"` or
`"B"`), `inject` makes two catalog passes: the first errors with
FileExists if an ACTIVE entry's name matches the target filename
(`P` abstracts `fnmatch(extract_name(data).strip(), filename)`); the
second finds the first END-or-DELETED cylinder, writes the 64-byte header
and the pair-encoded data blocks there, and stops.  If no slot is found
it errors with "no files found" and writes nothing.
-/

/-- Outcome of `inject`: the FileExists error, the no-free-slot error, or
success carrying the slot index and the performed writes. -/
inductive InjectResult where
  | fileExists
  | noFreeSlot
  | saved (cyl : Nat) (ws : List (Nat × Nat))
  deriving DecidableEq, Repr

/-- The bytes written to the image by an inject outcome (errors write
nothing). -/
def InjectResult.writes : InjectResult → List (Nat × Nat)
  | .saved _ ws => ws
  | _ => []

/-- The slot cylinder of a successful inject outcome. -/
def InjectResult.slot? : InjectResult → Option Nat
  | .saved i _ => some i
  | _ => none

/-- `inject`'s first pass (orao.py lines 262-273): `true` when the
FileExists error fires. -/
def inject_scan1 (img : Nat → Nat) (bs : Nat) (P : List Nat → Bool) : List Nat → Bool
  | [] => false
  | i :: rest =>
    if (cylData img bs i).getD 0 0 = 0x00 then false
    else if (cylData img bs i).getD 0 0 = 0xff then inject_scan1 img bs P rest
    else if P (extract_name (cylData img bs i)) then true
    else inject_scan1 img bs P rest

/-- `inject`'s second pass slot search (orao.py lines 278-282). -/
def inject_scan2 (img : Nat → Nat) (bs : Nat) : List Nat → Option Nat
  | [] => none
  | i :: rest =>
    if (cylData img bs i).getD 0 0 = 0x00 ∨ (cylData img bs i).getD 0 0 = 0xff then some i
    else inject_scan2 img bs rest

/-- The pair-encoded stream of one block-write loop (orao.py lines 327-328
and 335-336): `cnt` iterations of `write_byte(file, data[k])` starting at
logical index `k`, each writing the byte and a zero pad. -/
def blockStream (d : List Nat) : Nat → Nat → List Nat
  | _, 0 => []
  | k, cnt + 1 => d.getD k 0 :: 0 :: blockStream d (k + 1) cnt

/-- The full-block write loop of `inject` (orao.py lines 321-329): per
block the skip check, a seek, and 512 sequential raw bytes; returns the
writes and the final `pos`.  Arguments after `d`: remaining block count,
current block index `b`, current `pos`. -/
def injectBlocks (s bs i : Nat) (d : List Nat) : Nat → Nat → Nat → List (Nat × Nat) × Nat
  | 0, _, pos => ([], pos)
  | n + 1, b, pos =>
    let p := if pos + 2 = s then pos + 1 else pos
    let r := injectBlocks s bs i d n (b + 1) (p + 1)
    (seqWrites (bs * i + (p + 1) * 512) (blockStream d (b * 256) 256) ++ r.1, r.2)

/-- All data writes of `inject` for source bytes `d` at cylinder `i`:
the full blocks followed by the `fsize & 0xff`-byte partial block
(orao.py lines 316-336). -/
def inject_data_writes (disk : Disk) (i : Nat) (d : List Nat) : List (Nat × Nat) :=
  let blocks := d.length / 256
  let r := injectBlocks disk.sectors disk.block_size i d blocks 0 0
  let p := if r.2 + 2 = disk.sectors then r.2 + 1 else r.2
  r.1 ++ seqWrites (disk.block_size * i + (p + 1) * 512)
    (blockStream d (blocks * 256) (d.length % 256))

/-- All writes of one inject at slot `i`: the 48 header bytes
(lines 283-314) then the data blocks (lines 316-336). -/
def inject_writes_at (disk : Disk) (i : Nat) (fn : List Nat) (typeB : Bool)
    (start auto : Nat) (d : List Nat) : List (Nat × Nat) :=
  seqWrites (disk.block_size * i) (name_bytes fn ++ meta_bytes typeB start auto d.length)
  ++ inject_data_writes disk i d

/-- The `inject` command (orao.py lines 248-343) after its host-side
pre-checks. -/
def inject (img : Nat → Nat) (disk : Disk) (P : List Nat → Bool) (fn : List Nat)
    (typeB : Bool) (start auto : Nat) (d : List Nat) : InjectResult :=
  if inject_scan1 img disk.block_size P (List.range' 1 (disk.cylinders - 1)) then
    .fileExists
  else
    match inject_scan2 img disk.block_size (List.range' 1 (disk.cylinders - 1)) with
    | some i => .saved i (inject_writes_at disk i fn typeB start auto d)
    | none => .noFreeSlot

lemma meta_bytes_length (typeB : Bool) (start auto fsize : Nat) :
    (meta_bytes typeB start auto fsize).length = 16 := rfl

lemma inject_scan2_append (img : Nat → Nat) (bs c : Nat) (l2 : List Nat)
    (hc : (cylData img bs c).getD 0 0 = 0x00 ∨ (cylData img bs c).getD 0 0 = 0xff) :
    ∀ l1 : List Nat,
      (∀ j ∈ l1, (cylData img bs j).getD 0 0 ≠ 0x00 ∧ (cylData img bs j).getD 0 0 ≠ 0xff) →
      inject_scan2 img bs (l1 ++ c :: l2) = some c := by
  intro l1
  induction l1 with
  | nil => intro _; simp only [List.nil_append, inject_scan2, if_pos hc]
  | cons j rest ih =>
    intro h
    have hj := h j (by simp)
    simp only [List.cons_append, inject_scan2, if_neg (not_or.mpr hj)]
    exact ih (fun x hx => h x (by simp [hx]))

lemma inject_scan2_none (img : Nat → Nat) (bs : Nat) :
    ∀ l : List Nat,
      (∀ j ∈ l, (cylData img bs j).getD 0 0 ≠ 0x00 ∧ (cylData img bs j).getD 0 0 ≠ 0xff) →
      inject_scan2 img bs l = none := by
  intro l
  induction l with
  | nil => intro _; rfl
  | cons j rest ih =>
    intro h
    have hj := h j (by simp)
    simp only [inject_scan2, if_neg (not_or.mpr hj)]
    exact ih (fun x hx => h x (by simp [hx]))

lemma range'_split (c m : Nat) (h1 : 1 ≤ c) (h2 : c ≤ m) :
    List.range' 1 m = List.range' 1 (c - 1) ++ c :: List.range' (c + 1) (m - c) := by
  have ha : List.range' 1 (c - 1) ++ List.range' (1 + (c - 1)) (m - (c - 1)) =
      List.range' 1 (m - (c - 1) + (c - 1)) := List.range'_append_1 1 (c - 1) (m - (c - 1))
  rw [show 1 + (c - 1) = c from by omega] at ha
  rw [show m - (c - 1) + (c - 1) = m from by omega] at ha
  rw [← ha]
  congr 1
  rw [show m - (c - 1) = (m - c) + 1 from by omega, List.range'_succ]

/-- C7 (amended): when `inject`'s first pass finds no match, it writes the
new directory header at the first cylinder in `1..cylinders-1` whose
status byte is END (`0x00`) or DELETED (`0xff`) — all header-byte writes
lie inside that cylinder's first 48 bytes — so an erase followed by an
inject reuses the erased cylinder exactly when no earlier cylinder is
free; and when no cylinder in range is free it fails with the
no-free-slot error and writes nothing. -/
theorem claim7_inject_slot (img : Nat → Nat) (disk : Disk) (P : List Nat → Bool)
    (fn : List Nat) (typeB : Bool) (start auto : Nat) (d : List Nat) :
    (inject_scan1 img disk.block_size P (List.range' 1 (disk.cylinders - 1)) = false →
      ∀ c, 1 ≤ c → c < disk.cylinders →
        ((cylData img disk.block_size c).getD 0 0 = 0x00 ∨
          (cylData img disk.block_size c).getD 0 0 = 0xff) →
        (∀ j, 1 ≤ j → j < c →
          (cylData img disk.block_size j).getD 0 0 ≠ 0x00 ∧
            (cylData img disk.block_size j).getD 0 0 ≠ 0xff) →
        inject img disk P fn typeB start auto d =
          InjectResult.saved c (inject_writes_at disk c fn typeB start auto d)
        ∧ (∀ w ∈ seqWrites (disk.block_size * c)
            (name_bytes fn ++ meta_bytes typeB start auto d.length),
            disk.block_size * c ≤ w.1 ∧ w.1 < disk.block_size * c + 48))
    ∧ (inject_scan1 img disk.block_size P (List.range' 1 (disk.cylinders - 1)) = false →
        (∀ j, 1 ≤ j → j < disk.cylinders →
          (cylData img disk.block_size j).getD 0 0 ≠ 0x00 ∧
            (cylData img disk.block_size j).getD 0 0 ≠ 0xff) →
        inject img disk P fn typeB start auto d = InjectResult.noFreeSlot
        ∧ (inject img disk P fn typeB start auto d).writes = []) := by
  constructor
  · intro hscan c hc1 hc2 hfree hbefore
    have hsplit := range'_split c (disk.cylinders - 1) hc1 (by omega)
    have hs2 : inject_scan2 img disk.block_size (List.range' 1 (disk.cylinders - 1)) =
        some c := by
      rw [hsplit]
      apply inject_scan2_append img disk.block_size c _ hfree
      intro j hj
      have := List.mem_range'_1.1 hj
      exact hbefore j this.1 (by omega)
    have hres : inject img disk P fn typeB start auto d =
        InjectResult.saved c (inject_writes_at disk c fn typeB start auto d) := by
      rw [inject, if_neg (by simp [hscan]), hs2]
    refine ⟨hres, ?_⟩
    intro w hw
    have hb := seqWrites_fst_bounds (List.mem_map_of_mem Prod.fst hw)
    rw [List.length_append, name_bytes_length, meta_bytes_length] at hb
    omega
  · intro hscan hnone
    have hs2 : inject_scan2 img disk.block_size (List.range' 1 (disk.cylinders - 1)) =
        none := by
      apply inject_scan2_none
      intro j hj
      have := List.mem_range'_1.1 hj
      exact hnone j this.1 (by omega)
    have hres : inject img disk P fn typeB start auto d = InjectResult.noFreeSlot := by
      rw [inject, if_neg (by simp [hscan]), hs2]
    exact ⟨hres, by rw [hres]; rfl⟩

/-- Witness for C7: on a 3-cylinder disk with cylinder 1 ACTIVE and
cylinder 2 END, inject saves at cylinder 2; on one with every cylinder
ACTIVE, inject reports no free slot. -/
theorem claim7_inject_slot_witness :
    inject (fun o => if o = 512 then 0x41 else 0) ⟨[], 3, 1, 1⟩ (fun _ => false)
        [] false 0 0 [] =
      InjectResult.saved 2 (inject_writes_at ⟨[], 3, 1, 1⟩ 2 [] false 0 0 [])
    ∧ inject (fun _ => 0x41) ⟨[], 3, 1, 1⟩ (fun _ => false) [] false 0 0 [] =
      InjectResult.noFreeSlot := by
  constructor
  · exact ((claim7_inject_slot (fun o => if o = 512 then 0x41 else 0) ⟨[], 3, 1, 1⟩
      (fun _ => false) [] false 0 0 []).1 (by decide) 2 (by decide) (by decide)
      (by decide) (fun j h1 h2 => by interval_cases j; exact ⟨by decide, by decide⟩)).1
  · exact ((claim7_inject_slot (fun _ => 0x41) ⟨[], 3, 1, 1⟩
      (fun _ => false) [] false 0 0 []).2 (by decide)
      (fun j h1 h2 => by interval_cases j <;> exact ⟨by decide, by decide⟩)).1

/-- Counterexample to C7 as stated: on a catalog `[DELETED, ACTIVE "A", END]`,
erasing the ACTIVE file at cylinder 2 and injecting does not reuse
cylinder 2 — the first-fit scan picks the previously DELETED cylinder 1.
The first two conjuncts exhibit that cylinder 2 was the erased one. -/
theorem claim7_counterexample :
    (fun o => if o = 512 then 0xff else if o = 1024 then 0x41 else (0 : Nat)) (512 * 2) = 0x41
    ∧ erase_run 512 (fun nm => nm.getD 0 0 == 0x41)
        (fun o => if o = 512 then 0xff else if o = 1024 then 0x41 else (0 : Nat))
        (List.range' 1 3) (512 * 2) = 0xff
    ∧ (inject (erase_run 512 (fun nm => nm.getD 0 0 == 0x41)
          (fun o => if o = 512 then 0xff else if o = 1024 then 0x41 else (0 : Nat))
          (List.range' 1 3))
        ⟨[], 4, 1, 1⟩ (fun _ => false) [] false 0 0 []).slot? = some 1 := by
  refine ⟨by decide, by decide, by decide⟩

lemma inject_scan1_true (img : Nat → Nat) (bs : Nat) (P : List Nat → Bool) :
    ∀ l : List Nat, l.Pairwise (· < ·) →
      (∃ c ∈ l, ((cylData img bs c).getD 0 0 ≠ 0x00 ∧ (cylData img bs c).getD 0 0 ≠ 0xff)
        ∧ P (extract_name (cylData img bs c)) = true
        ∧ ∀ j ∈ l, j ≤ c → (cylData img bs j).getD 0 0 ≠ 0x00) →
      inject_scan1 img bs P l = true := by
  intro l
  induction l with
  | nil => intro _ h; obtain ⟨c, hc, _⟩ := h; cases hc
  | cons i rest ih =>
    intro hpw h
    obtain ⟨c, hcl, hact, hP, hend⟩ := h
    rw [List.pairwise_cons] at hpw
    obtain ⟨hlt, hpw'⟩ := hpw
    have hi0 : (cylData img bs i).getD 0 0 ≠ 0x00 := by
      rcases List.mem_cons.1 hcl with rfl | hcr
      · exact hact.1
      · exact hend i (by simp) (le_of_lt (hlt c hcr))
    by_cases hiff : (cylData img bs i).getD 0 0 = 0xff
    · have hci : c ≠ i := fun he => hact.2 (he ▸ hiff)
      have hcr : c ∈ rest := by
        rcases List.mem_cons.1 hcl with rfl | hcr
        · exact absurd rfl hci
        · exact hcr
      simp only [inject_scan1, if_neg hi0, if_pos hiff]
      exact ih hpw' ⟨c, hcr, hact, hP, fun j hj hjc => hend j (by simp [hj]) hjc⟩
    · by_cases hPi : P (extract_name (cylData img bs i)) = true
      · simp only [inject_scan1, if_neg hi0, if_neg hiff, hPi]
        rw [if_pos trivial]
      · have hci : c ≠ i := fun he => hPi (he ▸ hP)
        have hcr : c ∈ rest := by
          rcases List.mem_cons.1 hcl with rfl | hcr
          · exact absurd rfl hci
          · exact hcr
        have hPi' : P (extract_name (cylData img bs i)) = false := by simpa using hPi
        simp only [inject_scan1, if_neg hi0, if_neg hiff, hPi', Bool.false_eq_true, if_false]
        exact ih hpw' ⟨c, hcr, hact, hP, fun j hj hjc => hend j (by simp [hj]) hjc⟩

/-- C8: if some ACTIVE entry scanned before the first END header has a
name matching the target (under the opaque pattern predicate `P`), then
`inject` fails with the FileExists error and writes nothing. -/
theorem claim8_inject_file_exists (img : Nat → Nat) (disk : Disk) (P : List Nat → Bool)
    (fn : List Nat) (typeB : Bool) (start auto : Nat) (d : List Nat)
    (h : ∃ c, 1 ≤ c ∧ c < disk.cylinders ∧
      ((cylData img disk.block_size c).getD 0 0 ≠ 0x00 ∧
        (cylData img disk.block_size c).getD 0 0 ≠ 0xff) ∧
      P (extract_name (cylData img disk.block_size c)) = true ∧
      (∀ j, 1 ≤ j → j ≤ c → (cylData img disk.block_size j).getD 0 0 ≠ 0x00)) :
    inject img disk P fn typeB start auto d = InjectResult.fileExists
    ∧ (inject img disk P fn typeB start auto d).writes = [] := by
  obtain ⟨c, hc1, hc2, hact, hP, hend⟩ := h
  have hs1 : inject_scan1 img disk.block_size P (List.range' 1 (disk.cylinders - 1)) =
      true := by
    apply inject_scan1_true img disk.block_size P _
      (List.pairwise_lt_range' 1 _ 1 (by omega))
    refine ⟨c, List.mem_range'_1.2 ⟨hc1, by omega⟩, hact, hP, ?_⟩
    intro j hj hjc
    have := List.mem_range'_1.1 hj
    exact hend j this.1 hjc
  have hres : inject img disk P fn typeB start auto d = InjectResult.fileExists := by
    rw [inject, if_pos (by simp [hs1])]
  exact ⟨hres, by rw [hres]; rfl⟩

/-- Witness for C8: a matching ACTIVE entry at cylinder 1 makes inject
fail with FileExists and write nothing. -/
theorem claim8_inject_file_exists_witness :
    inject (fun o => if o = 512 then 0x41 else 0) ⟨[], 3, 1, 1⟩ (fun _ => true)
        [] false 0 0 [] = InjectResult.fileExists
    ∧ (inject (fun o => if o = 512 then 0x41 else 0) ⟨[], 3, 1, 1⟩ (fun _ => true)
        [] false 0 0 []).writes = [] :=
  claim8_inject_file_exists (fun o => if o = 512 then 0x41 else 0) ⟨[], 3, 1, 1⟩
    (fun _ => true) [] false 0 0 []
    ⟨1, by decide, by decide, ⟨by decide, by decide⟩, by decide,
      fun j h1 h2 => by interval_cases j; decide⟩

/-!
## Extract data reads (orao.py lines 150-196)

For a matched ACTIVE entry, `extract` computes
`data_size = end_addr - start_addr + 1`, then reads
`data_size >> 8` full blocks and a `data_size & 0xff`-byte partial block,
reading the data byte at every even offset after the block's seek position
and discarding the pad byte after it.
-/

/-- The data-byte read offsets of one block: `cnt` reads at
`o, o + 2, o + 4, ...` (the interleaved pad-byte reads are discarded by
the code and have no effect). -/
def blockReads (o cnt : Nat) : List Nat := (List.range cnt).map (fun j => o + 2 * j)

/-- The full-block read loop of `extract` (orao.py lines 176-184): per
block the skip check, a seek and 256 data-byte reads; returns the read
offsets and the final `pos`. -/
def extractBlocksR (s bs i : Nat) : Nat → Nat → List Nat × Nat
  | 0, pos => ([], pos)
  | n + 1, pos =>
    let p := if pos + 2 = s then pos + 1 else pos
    let r := extractBlocksR s bs i n (p + 1)
    (blockReads (bs * i + (p + 1) * 512) 256 ++ r.1, r.2)

/-- All data-byte read offsets of `extract` for a `ds`-byte file at
cylinder `i` (orao.py lines 173-192). -/
def extract_reads (disk : Disk) (i ds : Nat) : List Nat :=
  let r := extractBlocksR disk.sectors disk.block_size i (ds / 256) 0
  let p := if r.2 + 2 = disk.sectors then r.2 + 1 else r.2
  r.1 ++ blockReads (disk.block_size * i + (p + 1) * 512) (ds % 256)

/-- The bytes `extract` writes to the host file. -/
def extract_bytes (img : Nat → Nat) (disk : Disk) (i ds : Nat) : List Nat :=
  (extract_reads disk i ds).map img

lemma extractBlocksR_eq (s bs i : Nat) :
    ∀ n k, extractBlocksR s bs i n (specCounter s k) =
      ((List.range' k n).flatMap
        (fun b => blockReads (bs * i + (specUsed s b + 1) * 512) 256),
        specCounter s (k + n)) := by
  intro n
  induction n with
  | zero => intro k; simp [extractBlocksR]
  | succ n ih =>
    intro k
    have hstep : (if specCounter s k + 2 = s then specCounter s k + 1
        else specCounter s k) = specUsed s k := rfl
    have ih1 := ih (k + 1)
    rw [specCounter_succ s k] at ih1
    simp only [extractBlocksR, hstep]
    rw [ih1, List.range'_succ, List.flatMap_cons]
    have hn : k + 1 + n = k + (n + 1) := by omega
    rw [hn]

lemma extract_reads_eq (disk : Disk) (i ds : Nat) :
    extract_reads disk i ds =
      (List.range' 0 (ds / 256)).flatMap
        (fun b => blockReads (specOffset disk i b) 256)
      ++ blockReads (specOffset disk i (ds / 256)) (ds % 256) := by
  have h : extractBlocksR disk.sectors disk.block_size i (ds / 256) 0 =
      ((List.range' 0 (ds / 256)).flatMap
        (fun b => blockReads (disk.block_size * i + (specUsed disk.sectors b + 1) * 512) 256),
        specCounter disk.sectors (0 + ds / 256)) :=
    extractBlocksR_eq disk.sectors disk.block_size i (ds / 256) 0
  rw [extract_reads, h]
  have hused : (if specCounter disk.sectors (ds / 256) + 2 = disk.sectors then
      specCounter disk.sectors (ds / 256) + 1
      else specCounter disk.sectors (ds / 256)) = specUsed disk.sectors (ds / 256) := rfl
  simp only [Nat.zero_add, hused]
  rfl

lemma injectBlocks_eq (s bs i : Nat) (d : List Nat) :
    ∀ n b, injectBlocks s bs i d n b (specCounter s b) =
      ((List.range' b n).flatMap
        (fun b' => seqWrites (bs * i + (specUsed s b' + 1) * 512)
          (blockStream d (b' * 256) 256)),
        specCounter s (b + n)) := by
  intro n
  induction n with
  | zero => intro b; simp [injectBlocks]
  | succ n ih =>
    intro b
    have hstep : (if specCounter s b + 2 = s then specCounter s b + 1
        else specCounter s b) = specUsed s b := rfl
    have ih1 := ih (b + 1)
    rw [specCounter_succ s b] at ih1
    simp only [injectBlocks, hstep]
    rw [ih1, List.range'_succ, List.flatMap_cons]
    have hn : b + 1 + n = b + (n + 1) := by omega
    rw [hn]

lemma inject_data_writes_eq (disk : Disk) (i : Nat) (d : List Nat) :
    inject_data_writes disk i d =
      (List.range' 0 (d.length / 256)).flatMap
        (fun b => seqWrites (specOffset disk i b) (blockStream d (b * 256) 256))
      ++ seqWrites (specOffset disk i (d.length / 256))
          (blockStream d (d.length / 256 * 256) (d.length % 256)) := by
  have h : injectBlocks disk.sectors disk.block_size i d (d.length / 256) 0 0 =
      ((List.range' 0 (d.length / 256)).flatMap
        (fun b' => seqWrites (disk.block_size * i + (specUsed disk.sectors b' + 1) * 512)
          (blockStream d (b' * 256) 256)),
        specCounter disk.sectors (0 + d.length / 256)) :=
    injectBlocks_eq disk.sectors disk.block_size i d (d.length / 256) 0
  rw [inject_data_writes, h]
  have hused : (if specCounter disk.sectors (d.length / 256) + 2 = disk.sectors then
      specCounter disk.sectors (d.length / 256) + 1
      else specCounter disk.sectors (d.length / 256)) = specUsed disk.sectors (d.length / 256) := rfl
  simp only [Nat.zero_add, hused]
  rfl

lemma blockReads_length (o cnt : Nat) : (blockReads o cnt).length = cnt := by
  simp [blockReads]

lemma blockReads_getD (o : Nat) (cnt k : Nat) (hk : k < cnt) :
    (blockReads o cnt).getD k 0 = o + 2 * k := by
  simp [blockReads, List.getD_eq_getElem?_getD, List.getElem?_range hk]

lemma blockStream_length (d : List Nat) :
    ∀ cnt k, (blockStream d k cnt).length = 2 * cnt := by
  intro cnt
  induction cnt with
  | zero => intro k; rfl
  | succ cnt ih =>
    intro k
    simp only [blockStream, List.length_cons, ih]
    omega

lemma blockStream_getD_even (d : List Nat) :
    ∀ cnt j k, j < cnt → (blockStream d k cnt).getD (2 * j) 0 = d.getD (k + j) 0 := by
  intro cnt
  induction cnt with
  | zero => intro j k h; omega
  | succ cnt ih =>
    intro j k hj
    cases j with
    | zero => simp [blockStream]
    | succ j =>
      rw [show 2 * (j + 1) = 2 * j + 1 + 1 from by omega]
      simp only [blockStream, List.getD_cons_succ]
      rw [ih j (k + 1) (by omega)]
      congr 1
      omega

lemma getD_map_eq (f : Nat → Nat) (l : List Nat) (k : Nat) (hk : k < l.length) :
    (l.map f).getD k 0 = f (l.getD k 0) := by
  simp [List.getD_eq_getElem?_getD, List.getElem?_eq_getElem hk]

lemma getD_eq_getElem_of_lt (l : List Nat) (k : Nat) (h : k < l.length) :
    l.getD k 0 = l[k] := by
  rw [List.getD_eq_getElem?_getD, List.getElem?_eq_getElem h]
  rfl

lemma list_eq_of_getD (l1 l2 : List Nat) (hlen : l1.length = l2.length)
    (h : ∀ k, k < l1.length → l1.getD k 0 = l2.getD k 0) : l1 = l2 := by
  apply List.ext_getElem hlen
  intro k hk1 hk2
  have hx := h k hk1
  rwa [getD_eq_getElem_of_lt l1 k hk1, getD_eq_getElem_of_lt l2 k hk2] at hx

lemma flatMap_blockReads_length (disk : Disk) (i : Nat) :
    ∀ n b, ((List.range' b n).flatMap
      (fun x => blockReads (specOffset disk i x) 256)).length = n * 256 := by
  intro n
  induction n with
  | zero => intro b; rfl
  | succ n ih =>
    intro b
    rw [List.range'_succ, List.flatMap_cons, List.length_append, blockReads_length, ih]
    omega

lemma extract_reads_length (disk : Disk) (i ds : Nat) :
    (extract_reads disk i ds).length = ds := by
  rw [extract_reads_eq, List.length_append, flatMap_blockReads_length, blockReads_length]
  omega

lemma extract_bytes_length (img : Nat → Nat) (disk : Disk) (i ds : Nat) :
    (extract_bytes img disk i ds).length = ds := by
  rw [extract_bytes, List.length_map, extract_reads_length]

lemma readsAux_getD (disk : Disk) (i : Nat) :
    ∀ n b rem k, k < n * 256 + rem → rem ≤ 256 →
      (((List.range' b n).flatMap (fun x => blockReads (specOffset disk i x) 256))
        ++ blockReads (specOffset disk i (b + n)) rem).getD k 0 =
      specOffset disk i (b + k / 256) + 2 * (k % 256) := by
  intro n
  induction n with
  | zero =>
    intro b rem k hk hrem
    simp only [List.range'_zero, List.flatMap_nil, List.nil_append, Nat.add_zero]
    rw [blockReads_getD _ rem k (by omega)]
    have h1 : k / 256 = 0 := Nat.div_eq_of_lt (by omega)
    have h2 : k % 256 = k := Nat.mod_eq_of_lt (by omega)
    rw [h1, h2, Nat.add_zero]
  | succ n ih =>
    intro b rem k hk hrem
    rw [List.range'_succ, List.flatMap_cons, List.append_assoc]
    by_cases hk2 : k < 256
    · rw [getD_append_left (by rw [blockReads_length]; omega)]
      rw [blockReads_getD _ _ k hk2]
      have h1 : k / 256 = 0 := Nat.div_eq_of_lt hk2
      have h2 : k % 256 = k := Nat.mod_eq_of_lt hk2
      rw [h1, h2, Nat.add_zero]
    · rw [getD_append_right (by rw [blockReads_length]; omega), blockReads_length]
      have ih1 := ih (b + 1) rem (k - 256) (by omega) hrem
      rw [show b + 1 + n = b + (n + 1) from by omega] at ih1
      rw [ih1]
      have e1 : b + 1 + (k - 256) / 256 = b + k / 256 := by omega
      have e2 : (k - 256) % 256 = k % 256 := by omega
      rw [e1, e2]

/-- The canonical (skip-counter indexed) form of `inject`'s data writes:
`n` full blocks starting at block index `b`, then a `rem`-byte partial
block. -/
def dataWritesAux (disk : Disk) (i : Nat) (d : List Nat) (n b rem : Nat) :
    List (Nat × Nat) :=
  ((List.range' b n).flatMap
    (fun x => seqWrites (specOffset disk i x) (blockStream d (x * 256) 256)))
  ++ seqWrites (specOffset disk i (b + n)) (blockStream d ((b + n) * 256) rem)

lemma inject_data_writes_aux (disk : Disk) (i : Nat) (d : List Nat) :
    inject_data_writes disk i d =
      dataWritesAux disk i d (d.length / 256) 0 (d.length % 256) := by
  rw [inject_data_writes_eq, dataWritesAux]
  simp

lemma dataWritesAux_mem (disk : Disk) (i : Nat) (d : List Nat) :
    ∀ n b rem k, k < n * 256 + rem → rem ≤ 256 →
      (specOffset disk i (b + k / 256) + 2 * (k % 256), d.getD (b * 256 + k) 0) ∈
        dataWritesAux disk i d n b rem := by
  intro n
  induction n with
  | zero =>
    intro b rem k hk hrem
    rw [dataWritesAux]
    simp only [List.range'_zero, List.flatMap_nil, List.nil_append, Nat.add_zero]
    have h1 : k / 256 = 0 := Nat.div_eq_of_lt (by omega)
    have h2 : k % 256 = k := Nat.mod_eq_of_lt (by omega)
    rw [h1, h2, Nat.add_zero]
    have hmem := seqWrites_mem_getD (blockStream d (b * 256) rem) (specOffset disk i b)
      (2 * k) (by rw [blockStream_length]; omega)
    rwa [blockStream_getD_even d rem k (b * 256) (by omega)] at hmem
  | succ n ih =>
    intro b rem k hk hrem
    rw [dataWritesAux, List.range'_succ, List.flatMap_cons, List.append_assoc]
    by_cases hk2 : k < 256
    · apply List.mem_append_left
      have h1 : k / 256 = 0 := Nat.div_eq_of_lt hk2
      have h2 : k % 256 = k := Nat.mod_eq_of_lt hk2
      rw [h1, h2, Nat.add_zero]
      have hmem := seqWrites_mem_getD (blockStream d (b * 256) 256) (specOffset disk i b)
        (2 * k) (by rw [blockStream_length]; omega)
      rwa [blockStream_getD_even d 256 k (b * 256) hk2] at hmem
    · apply List.mem_append_right
      have ih1 := ih (b + 1) rem (k - 256) (by omega) hrem
      rw [dataWritesAux] at ih1
      rw [show b + 1 + n = b + (n + 1) from by omega] at ih1
      have e1 : b + 1 + (k - 256) / 256 = b + k / 256 := by omega
      have e2 : (k - 256) % 256 = k % 256 := by omega
      have e3 : (b + 1) * 256 + (k - 256) = b * 256 + k := by omega
      rw [e1, e2, e3] at ih1
      exact ih1

lemma specUsed_succ_ge (s b : Nat) : specUsed s b + 1 ≤ specUsed s (b + 1) := by
  have h := specCounter_succ s b
  show specUsed s b + 1 ≤
    (if specCounter s (b + 1) + 2 = s then specCounter s (b + 1) + 1
      else specCounter s (b + 1))
  split <;> omega

lemma specOffset_succ_ge (disk : Disk) (i b : Nat) :
    specOffset disk i b + 512 ≤ specOffset disk i (b + 1) := by
  have h := specUsed_succ_ge disk.sectors b
  simp only [specOffset]
  have h2 : (specUsed disk.sectors b + 1) * 512 + 512 ≤
      (specUsed disk.sectors (b + 1) + 1) * 512 := by
    have : specUsed disk.sectors b + 2 ≤ specUsed disk.sectors (b + 1) + 1 := by omega
    calc (specUsed disk.sectors b + 1) * 512 + 512
        = (specUsed disk.sectors b + 2) * 512 := by ring
      _ ≤ (specUsed disk.sectors (b + 1) + 1) * 512 :=
        Nat.mul_le_mul_right 512 this
  omega

lemma dataWritesAux_sorted (disk : Disk) (i : Nat) (d : List Nat) :
    ∀ n b rem,
      ((dataWritesAux disk i d n b rem).map Prod.fst).Pairwise (· < ·)
      ∧ ∀ o ∈ (dataWritesAux disk i d n b rem).map Prod.fst,
          specOffset disk i b ≤ o := by
  intro n
  induction n with
  | zero =>
    intro b rem
    rw [dataWritesAux]
    simp only [List.range'_zero, List.flatMap_nil, List.nil_append, Nat.add_zero,
      seqWrites_map_fst]
    constructor
    · exact List.pairwise_lt_range' _ _ 1 (by omega)
    · intro o ho
      exact (List.mem_range'_1.1 ho).1
  | succ n ih =>
    intro b rem
    rw [dataWritesAux, List.range'_succ, List.flatMap_cons, List.append_assoc]
    have hih := ih (b + 1) rem
    rw [dataWritesAux] at hih
    rw [show b + 1 + n = b + (n + 1) from by omega] at hih
    rw [List.map_append, seqWrites_map_fst, blockStream_length]
    constructor
    · rw [List.pairwise_append]
      refine ⟨List.pairwise_lt_range' _ _ 1 (by omega), hih.1, ?_⟩
      intro x hx y hy
      have hx2 := List.mem_range'_1.1 hx
      have hy2 := hih.2 y hy
      have hstep := specOffset_succ_ge disk i b
      omega
    · intro o ho
      rcases List.mem_append.1 ho with hl | hr
      · exact (List.mem_range'_1.1 hl).1
      · have := hih.2 o hr
        have hstep := specOffset_succ_ge disk i b
        omega

lemma inject_writes_at_nodup (disk : Disk) (i : Nat) (fn : List Nat) (typeB : Bool)
    (start auto : Nat) (d : List Nat) :
    ((inject_writes_at disk i fn typeB start auto d).map Prod.fst).Nodup := by
  have hsorted : ((inject_writes_at disk i fn typeB start auto d).map Prod.fst).Pairwise
      (· < ·) := by
    rw [inject_writes_at, List.map_append, seqWrites_map_fst, List.length_append,
      name_bytes_length, meta_bytes_length, inject_data_writes_aux, List.pairwise_append]
    have hd := dataWritesAux_sorted disk i d (d.length / 256) 0 (d.length % 256)
    refine ⟨List.pairwise_lt_range' _ _ 1 (by omega), hd.1, ?_⟩
    intro x hx y hy
    have hx2 := List.mem_range'_1.1 hx
    have hy2 := hd.2 y hy
    have hlow : disk.block_size * i + 512 ≤ specOffset disk i 0 := by
      simp only [specOffset]
      have : 512 ≤ (specUsed disk.sectors 0 + 1) * 512 := by
        have : 1 ≤ specUsed disk.sectors 0 + 1 := by omega
        calc (512 : Nat) = 1 * 512 := by ring
          _ ≤ (specUsed disk.sectors 0 + 1) * 512 := Nat.mul_le_mul_right 512 this
      omega
    omega
  exact hsorted.imp (fun h => Nat.ne_of_lt h)

/-- C4: extracting a file's `end - start + 1` data bytes and injecting the
extracted bytes back at the same cylinder reproduces the data region
byte-for-byte: re-extracting after the inject returns exactly the
extracted bytes, because both directions drive the seek offsets with the
same stateful skip counter. -/
theorem claim4_extract_inject_roundtrip (img : Nat → Nat) (disk : Disk)
    (i start endA : Nat) (fn : List Nat) (typeB : Bool) (astart aauto : Nat)
    (hse : start ≤ endA)
    (hfit : ∀ b, b ≤ (endA - start + 1) / 256 →
      (specUsed disk.sectors b + 2) * 512 ≤ disk.block_size) :
    extract_bytes
      (applyWrites img (inject_writes_at disk i fn typeB astart aauto
        (extract_bytes img disk i (endA - start + 1))))
      disk i (endA - start + 1)
    = extract_bytes img disk i (endA - start + 1) := by
  generalize endA - start + 1 = ds at hfit ⊢
  have hdlen : (extract_bytes img disk i ds).length = ds := extract_bytes_length img disk i ds
  apply list_eq_of_getD
  · rw [extract_bytes_length, extract_bytes_length]
  intro k hk0
  have hk : k < ds := by rwa [extract_bytes_length] at hk0
  have hrlen : k < (extract_reads disk i ds).length := by rw [extract_reads_length]; omega
  have hread : (extract_reads disk i ds).getD k 0 =
      specOffset disk i (k / 256) + 2 * (k % 256) := by
    rw [extract_reads_eq]
    have h := readsAux_getD disk i (ds / 256) 0 (ds % 256) k (by omega) (by omega)
    simpa using h
  have hL : (extract_bytes
      (applyWrites img (inject_writes_at disk i fn typeB astart aauto
        (extract_bytes img disk i ds))) disk i ds).getD k 0 =
      applyWrites img (inject_writes_at disk i fn typeB astart aauto
        (extract_bytes img disk i ds)) ((extract_reads disk i ds).getD k 0) := by
    rw [extract_bytes]; exact getD_map_eq _ _ k hrlen
  have hR : (extract_bytes img disk i ds).getD k 0 =
      img ((extract_reads disk i ds).getD k 0) := by
    rw [extract_bytes]; exact getD_map_eq _ _ k hrlen
  have hmem : (specOffset disk i (k / 256) + 2 * (k % 256),
      (extract_bytes img disk i ds).getD k 0) ∈
      inject_writes_at disk i fn typeB astart aauto (extract_bytes img disk i ds) := by
    rw [inject_writes_at]
    apply List.mem_append_right
    rw [inject_data_writes_aux, hdlen]
    have h := dataWritesAux_mem disk i (extract_bytes img disk i ds) (ds / 256) 0
      (ds % 256) k (by omega) (by omega)
    simpa using h
  have happ := applyWrites_mem_nodup _ img _ _
    (inject_writes_at_nodup disk i fn typeB astart aauto (extract_bytes img disk i ds)) hmem
  rw [hL, hR, hread, happ, hR, hread]

/-- Witness for C4 at a concrete image and file (3 data bytes at
cylinder 1 of a 490x4x32 disk). -/
theorem claim4_extract_inject_roundtrip_witness :
    extract_bytes
      (applyWrites (fun o => o % 256) (inject_writes_at ⟨[], 490, 4, 32⟩ 1 [] false 0 0
        (extract_bytes (fun o => o % 256) ⟨[], 490, 4, 32⟩ 1 (0x402 - 0x400 + 1))))
      ⟨[], 490, 4, 32⟩ 1 (0x402 - 0x400 + 1)
    = extract_bytes (fun o => o % 256) ⟨[], 490, 4, 32⟩ 1 (0x402 - 0x400 + 1) :=
  claim4_extract_inject_roundtrip (fun o => o % 256) ⟨[], 490, 4, 32⟩ 1 0x400 0x402
    [] false 0 0 (by decide)
    (fun b hb => by interval_cases b; decide)

/-- C10: `inject` checks nowhere that the source file fits in one
cylinder: whenever a block's skip-counter position `pos` satisfies
`(pos + 2) * 512 > block_size`, the writes of that block land at offsets
at or beyond the start of cylinder `i + 1`, while `inject` still reports
success (no error path exists for this). -/
theorem claim10_inject_overflow (img : Nat → Nat) (disk : Disk) (P : List Nat → Bool)
    (fn : List Nat) (typeB : Bool) (start auto : Nat) (d : List Nat) (i b : Nat)
    (hscan1 : inject_scan1 img disk.block_size P (List.range' 1 (disk.cylinders - 1)) = false)
    (hscan2 : inject_scan2 img disk.block_size (List.range' 1 (disk.cylinders - 1)) = some i)
    (hb : b < d.length / 256 ∨ (b = d.length / 256 ∧ d.length % 256 ≠ 0))
    (hover : disk.block_size < (specUsed disk.sectors b + 2) * 512) :
    inject img disk P fn typeB start auto d =
      InjectResult.saved i (inject_writes_at disk i fn typeB start auto d)
    ∧ ∃ w ∈ (inject img disk P fn typeB start auto d).writes,
        disk.block_size * (i + 1) ≤ w.1 := by
  have hres : inject img disk P fn typeB start auto d =
      InjectResult.saved i (inject_writes_at disk i fn typeB start auto d) := by
    rw [inject, if_neg (by simp [hscan1]), hscan2]
  refine ⟨hres, ?_⟩
  rw [hres]
  have hk : b * 256 < (d.length / 256) * 256 + d.length % 256 := by
    rcases hb with h | ⟨rfl, h⟩
    · have : (b + 1) * 256 ≤ (d.length / 256) * 256 := Nat.mul_le_mul_right 256 (by omega)
      omega
    · omega
  have hmem := dataWritesAux_mem disk i d (d.length / 256) 0 (d.length % 256) (b * 256)
    (by omega) (by omega)
  have hb2 : (b * 256) / 256 = b := by omega
  have hb3 : (b * 256) % 256 = 0 := by omega
  rw [hb2, hb3] at hmem
  simp only [Nat.zero_add, Nat.mul_zero, Nat.add_zero, Nat.zero_mul] at hmem
  refine ⟨(specOffset disk i b, d.getD (b * 256) 0), ?_, ?_⟩
  · show _ ∈ InjectResult.writes _
    rw [InjectResult.writes, inject_writes_at]
    apply List.mem_append_right
    rw [inject_data_writes_aux]
    exact hmem
  · show disk.block_size * (i + 1) ≤ specOffset disk i b
    rw [specOffset, Disk.block_size]
    rw [Disk.block_size] at hover
    have h512 : (specUsed disk.sectors b + 1) * 512 ≥ disk.heads * disk.sectors * 512 := by
      have : disk.heads * disk.sectors < specUsed disk.sectors b + 2 := by
        by_contra hcon
        push_neg at hcon
        exact absurd (Nat.mul_le_mul_right 512 hcon) (by omega)
      exact Nat.mul_le_mul_right 512 (by omega)
    calc disk.heads * disk.sectors * 512 * (i + 1)
        = disk.heads * disk.sectors * 512 * i + disk.heads * disk.sectors * 512 := by ring
      _ ≤ disk.heads * disk.sectors * 512 * i + (specUsed disk.sectors b + 1) * 512 := by
          omega

/-- Witness for C10: a 1024-byte file on a 1-head, 4-sector disk
(2048-byte cylinders): block 3's position 4 makes its writes land in
cylinder 2. -/
theorem claim10_inject_overflow_witness :
    inject (fun _ => 0) ⟨[], 3, 1, 4⟩ (fun _ => false) [] false 0 0
        (List.replicate 1024 7) =
      InjectResult.saved 1 (inject_writes_at ⟨[], 3, 1, 4⟩ 1 [] false 0 0
        (List.replicate 1024 7))
    ∧ ∃ w ∈ (inject (fun _ => 0) ⟨[], 3, 1, 4⟩ (fun _ => false) [] false 0 0
        (List.replicate 1024 7)).writes,
        Disk.block_size ⟨[], 3, 1, 4⟩ * (1 + 1) ≤ w.1 :=
  claim10_inject_overflow (fun _ => 0) ⟨[], 3, 1, 4⟩ (fun _ => false) [] false 0 0
    (List.replicate 1024 7) 1 3 (by decide) (by decide) (by decide) (by decide)

end Orao
